import Mathlib

set_option maxHeartbeats 1000000
set_option maxRecDepth 8000

/-!
Shallow embedding of picsorter (src/main.py), a CLI tool that renames image
files to timestamp-derived names.

Modelling conventions:
* A filesystem path is a list of name components relative to an abstract
  filesystem root (`FsPath`).
* The filesystem (`FS`) is a list of files (path plus content) together with
  a list of directory paths.  `Path.exists()` is membership in either list.
* Image contents are abstracted to what `extract_date_taken` observes: either
  opening/decoding raises an exception (`ImageMeta.openError`) or it yields a
  list of EXIF tag/value pairs in dict iteration order (`ImageMeta.exifData`),
  with tag ids already translated through `PIL.ExifTags.TAGS`.  The file's
  modification time is carried alongside and is preserved by renames.
* `datetime.strptime(value, "%Y:%m:%d %H:%M:%S")` is modelled on the canonical
  fixed-width form of EXIF date strings (exactly `YYYY:MM:DD HH:MM:SS`), with
  calendar validation matching `datetime` (year 1–9999, real day-of-month,
  24h clock).
* OS-level failures of `Path.rename` (permissions, races, ...) are modelled by
  an oracle telling which renames raise.  `Path.mkdir(exist_ok=True)` fails
  exactly when a non-directory entry occupies the target path; this exception
  is uncaught in the source and aborts the per-file loop (`crashed`).
-/

abbrev FsPath := List String

/-- Decimal digit character, i.e. `Char.ofNat (48 + n)` for `n < 10`. -/
def digitChar (n : Nat) : Char := Char.ofNat (48 + n)

/-- Decimal rendering of a natural number (fuel-based so that it is
structural); `natStrAux fuel n` is correct whenever `n < fuel`. -/
def natStrAux : Nat → Nat → List Char
  | 0, _ => []
  | fuel+1, n => if n < 10 then [digitChar n] else natStrAux fuel (n / 10) ++ [digitChar (n % 10)]

/-- Decimal rendering of a natural number. -/
def natStr (n : Nat) : String := ⟨natStrAux (n + 1) n⟩

/-- Zero-padding to width `w`, as in Python `"%0wd" % n` / `f"{n:0wd}"`. -/
def pad (w n : Nat) : String := ⟨List.replicate (w - (natStr n).data.length) '0' ++ (natStr n).data⟩

/-- Value of a digit string (left inverse of the rendering functions). -/
def digitsVal (l : List Char) : Nat := l.foldl (fun a c => a * 10 + (c.toNat - 48)) 0

/-- `str.lower()` as used on extensions (character-wise `Char.toLower`, which
agrees with Python on the ASCII extensions involved here). -/
def strToLower (s : String) : String := ⟨s.data.map Char.toLower⟩

/-- A timestamp with second precision, as carried by `datetime` values in the
source (only the fields that `strftime('%Y%m%d%H%M%S')` consumes). -/
structure DateTime where
  year : Nat
  month : Nat
  day : Nat
  hour : Nat
  minute : Nat
  second : Nat
deriving DecidableEq, Repr

/-- `date_taken.strftime('%Y%m%d%H%M%S')` from `generate_new_filename`. -/
def dateStr (dt : DateTime) : String :=
  pad 4 dt.year ++ pad 2 dt.month ++ pad 2 dt.day ++ pad 2 dt.hour ++ pad 2 dt.minute ++ pad 2 dt.second

/-- Leap year rule of the Gregorian calendar (as used by `datetime`). -/
def isLeap (y : Nat) : Bool := (y % 4 == 0 && y % 100 != 0) || y % 400 == 0

/-- Number of days of month `m` in year `y` (as validated by `datetime`). -/
def daysInMonth (y m : Nat) : Nat :=
  if m = 2 then (if isLeap y then 29 else 28)
  else if m = 4 ∨ m = 6 ∨ m = 9 ∨ m = 11 then 30
  else 31

/-- The range restrictions `datetime` puts on its fields. -/
def validDate (dt : DateTime) : Prop :=
  1 ≤ dt.year ∧ dt.year ≤ 9999 ∧ 1 ≤ dt.month ∧ dt.month ≤ 12 ∧
  1 ≤ dt.day ∧ dt.day ≤ daysInMonth dt.year dt.month ∧
  dt.hour ≤ 23 ∧ dt.minute ≤ 59 ∧ dt.second ≤ 59

instance (dt : DateTime) : Decidable (validDate dt) := by
  unfold validDate; infer_instance

/-- Numeric value of a digit character. -/
def dval (c : Char) : Nat := c.toNat - 48

/-- `datetime.strptime(value, '%Y:%m:%d %H:%M:%S')`, modelled on the canonical
fixed-width EXIF form: `none` exactly when the call raises `ValueError`. -/
def parseExifDate (v : String) : Option DateTime :=
  match v.data with
  | [y1,y2,y3,y4,s1,m1,m2,s2,d1,d2,s3,h1,h2,s4,n1,n2,s5,c1,c2] =>
    if s1 = ':' ∧ s2 = ':' ∧ s3 = ' ' ∧ s4 = ':' ∧ s5 = ':' ∧
       y1.isDigit ∧ y2.isDigit ∧ y3.isDigit ∧ y4.isDigit ∧
       m1.isDigit ∧ m2.isDigit ∧ d1.isDigit ∧ d2.isDigit ∧
       h1.isDigit ∧ h2.isDigit ∧ n1.isDigit ∧ n2.isDigit ∧
       c1.isDigit ∧ c2.isDigit then
      let dt : DateTime :=
        ⟨dval y1 * 1000 + dval y2 * 100 + dval y3 * 10 + dval y4,
         dval m1 * 10 + dval m2, dval d1 * 10 + dval d2,
         dval h1 * 10 + dval h2, dval n1 * 10 + dval n2, dval c1 * 10 + dval c2⟩
      if validDate dt then some dt else none
    else none
  | _ => none

/-- The membership test `tag in ['DateTime', 'DateTimeOriginal', 'DateTimeDigitized']`
from `extract_date_taken`. -/
def recognizedDateTag (t : String) : Bool :=
  t == "DateTime" || t == "DateTimeOriginal" || t == "DateTimeDigitized"

/-- The tag loop of `extract_date_taken`: scan the EXIF items in iteration
order and return the first recognized tag whose value parses (a `ValueError`
makes the loop `continue`). -/
def firstParse : List (String × String) → Option DateTime
  | [] => none
  | e :: rest =>
    if recognizedDateTag e.1 then
      match parseExifDate e.2 with
      | some dt => some dt
      | none => firstParse rest
    else firstParse rest

/-- What `extract_date_taken` can observe about an image file. -/
inductive ImageMeta
  | openError
  | exifData (tags : List (String × String))
deriving DecidableEq, Repr

/-- The content of a file, as far as the tool can observe it.  `mtime` is what
`os.path.getmtime` reports, converted by `datetime.fromtimestamp`; a rename
preserves it. -/
structure FileContent where
  meta : ImageMeta
  mtime : DateTime
deriving DecidableEq, Repr

/-- The filesystem: files (with content) and directories. -/
structure FS where
  files : List (FsPath × FileContent)
  dirs : List FsPath
deriving DecidableEq, Repr

def filePaths (fs : FS) : List FsPath := fs.files.map (·.1)

def allPaths (fs : FS) : List FsPath := filePaths fs ++ fs.dirs

/-- `Path.exists()`: true for files and directories alike. -/
def fsExists (fs : FS) (p : FsPath) : Prop := p ∈ allPaths fs

instance (fs : FS) (p : FsPath) : Decidable (fsExists fs p) := by
  unfold fsExists; infer_instance

/-- What `Image.open(p)` finds: the content stored at `p`, if any. -/
def lookupFile (fs : FS) (p : FsPath) : Option FileContent :=
  (fs.files.find? (fun e => e.1 == p)).map (·.2)

/-- `PicSorter.extract_date_taken`.  The argument is the content found at the
image path (`none` when the file is gone, in which case `Image.open` raises).
Returns `(date, is_fallback)`: `(none, false)` when the outer `try` catches an
exception, `(some mtime, true)` when no EXIF tag parses, `(some tag, false)`
when a recognized tag parses. -/
def extract_date_taken (c : Option FileContent) : Option DateTime × Bool :=
  match c with
  | none => (none, false)
  | some fc =>
    match fc.meta with
    | .openError => (none, false)
    | .exifData tags =>
      match firstParse tags with
      | some dt => (some dt, false)
      | none => (some fc.mtime, true)

/-- `PurePath.suffix` logic on a file name, as in CPython:
`i = name.rfind('.'); return name[i:] if 0 < i < len(name) - 1 else ''`. -/
def rfindDot : List Char → Option Nat
  | [] => none
  | c :: rest =>
    match rfindDot rest with
    | some i => some (i + 1)
    | none => if c = '.' then some 0 else none

def fileSuffix (name : String) : String :=
  match rfindDot name.data with
  | some i => if 0 < i ∧ i < name.data.length - 1 then ⟨name.data.drop i⟩ else ""
  | none => ""

/-- Last component of a path (`Path.name`). -/
def lastName (p : FsPath) : String := p.getLastD ""

/-- `Path.parent` for our root-relative paths. -/
def parentDir (p : FsPath) : FsPath := p.dropLast

/-- `Path.mkdir(exist_ok=True)`: succeeds (possibly as a no-op) unless a
non-directory entry already occupies the path, in which case `OSError` is
raised despite `exist_ok` because `is_dir()` is false. -/
def mkdirExistOk (fs : FS) (d : FsPath) : Except Unit FS :=
  if d ∈ filePaths fs then .error ()
  else if d ∈ fs.dirs then .ok fs
  else .ok { fs with dirs := fs.dirs ++ [d] }

/-- Candidate file name number `n` of the conflict loop in
`generate_new_filename`: the plain `f"{date_str}{extension}"` for `n = 0` and
`f"{date_str}_{counter:02d}{extension}"` for `n = counter ≥ 1`. -/
def candName (ds ext : String) : Nat → String
  | 0 => ds ++ ext
  | n+1 => ds ++ "_" ++ pad 2 (n + 1) ++ ext

/-- The `while new_path.exists() and new_path != original_path` loop of
`generate_new_filename`, with explicit fuel (the real loop is unbounded; any
fuel larger than the number of filesystem entries is enough, see
`resolveLoop_exit`). -/
def resolveLoop (fs : FS) (orig tdir : FsPath) (ds ext : String) : Nat → Nat → FsPath
  | 0, n => tdir ++ [candName ds ext n]
  | fuel+1, n =>
    let p := tdir ++ [candName ds ext n]
    if fsExists fs p ∧ p ≠ orig then resolveLoop fs orig tdir ds ext fuel (n + 1) else p

def fsSize (fs : FS) : Nat := fs.files.length + fs.dirs.length

/-- The `target_dir` local of `generate_new_filename`: the original parent,
or its `no-exif` subdirectory when the fallback timestamp was used. -/
def targetDir (p : FsPath) (is_fallback : Bool) : FsPath :=
  if is_fallback then parentDir p ++ ["no-exif"] else parentDir p

/-- The `extension` local of `generate_new_filename`:
`original_path.suffix.lower()`. -/
def extOf (p : FsPath) : String := strToLower (fileSuffix (lastName p))

/-- Candidate destination path number `n` of the conflict loop. -/
def candPath (p : FsPath) (dt : DateTime) (is_fallback : Bool) (n : Nat) : FsPath :=
  targetDir p is_fallback ++ [candName (dateStr dt) (extOf p) n]

/-- `PicSorter.generate_new_filename`.  Returns the resolved destination path
together with the filesystem (the `no-exif` `mkdir` happens here, before the
conflict loop and regardless of dry-run).  `.error` models the uncaught
exception when `mkdir` fails. -/
def generate_new_filename (fs : FS) (original_path : FsPath) (date_taken : DateTime)
    (is_fallback : Bool) : Except Unit (FsPath × FS) :=
  match (if is_fallback then mkdirExistOk fs (parentDir original_path ++ ["no-exif"]) else .ok fs) with
  | .error e => .error e
  | .ok fs1 =>
    .ok (resolveLoop fs1 original_path (targetDir original_path is_fallback)
          (dateStr date_taken) (extOf original_path) (fsSize fs1 + 1) 0, fs1)

/-- Per-file outcome, standing in for the per-file reporting lines. -/
inductive StepResult
  | extractError
  | inPlace (dest : FsPath)
  | wouldRename (dest : FsPath)
  | renamed (dest : FsPath)
  | renameFailed (dest : FsPath)
deriving DecidableEq, Repr

structure TraceEntry where
  path : FsPath
  result : StepResult
deriving DecidableEq, Repr

/-- Which renames raise an OS error (permissions, races, ...). -/
abbrev RenameOracle := FsPath → FsPath → Bool

/-- `original_path.rename(new_path)` on success: the file keeps its content
(and hence its modification time). -/
def fsRename (fs : FS) (o n : FsPath) : FS :=
  { fs with files := fs.files.map (fun e => if e.1 = o then (n, e.2) else e) }

/-- `PicSorter.rename_file`: no-op success on equal paths, report-only in
dry-run mode, otherwise perform the rename; OS errors are caught and yield
`false`. -/
def rename_file (dry : Bool) (oracle : RenameOracle) (fs : FS)
    (original_path new_path : FsPath) : Bool × FS × StepResult :=
  if original_path = new_path then (true, fs, .inPlace new_path)
  else if dry then (true, fs, .wouldRename new_path)
  else if oracle original_path new_path then (false, fs, .renameFailed new_path)
  else (true, fsRename fs original_path new_path, .renamed new_path)

/-- Aggregate result of the per-file loop of `process_folder`.  `crashed` is
set when the uncaught `mkdir` exception aborts the loop (files processed
before the crash stay processed). -/
structure RunOut where
  fs : FS
  processed : Nat
  errors : Nat
  trace : List TraceEntry
  crashed : Bool
deriving DecidableEq, Repr

/-- The `for image_path in image_files` loop of `process_folder`. -/
def runList (dry : Bool) (oracle : RenameOracle) : FS → List FsPath → RunOut
  | fs, [] => ⟨fs, 0, 0, [], false⟩
  | fs, p :: rest =>
    match extract_date_taken (lookupFile fs p) with
    | (none, _) =>
      let o := runList dry oracle fs rest
      ⟨o.fs, o.processed, o.errors + 1, ⟨p, .extractError⟩ :: o.trace, o.crashed⟩
    | (some dt, fb) =>
      match generate_new_filename fs p dt fb with
      | .error _ => ⟨fs, 0, 0, [], true⟩
      | .ok (np, fs1) =>
        match rename_file dry oracle fs1 p np with
        | (true, fs2, res) =>
          let o := runList dry oracle fs2 rest
          ⟨o.fs, o.processed + 1, o.errors, ⟨p, res⟩ :: o.trace, o.crashed⟩
        | (false, fs2, res) =>
          let o := runList dry oracle fs2 rest
          ⟨o.fs, o.processed, o.errors + 1, ⟨p, res⟩ :: o.trace, o.crashed⟩

/-- The fixed extension allowlist `SUPPORTED_EXTENSIONS`. -/
def SUPPORTED_EXTENSIONS : List String :=
  [".jpg", ".jpeg", ".png", ".tiff", ".tif", ".bmp", ".gif", ".webp"]

/-- `PicSorter.find_image_files`: every file under the root whose lowercased
suffix is in the allowlist, in (filesystem-dependent) enumeration order. -/
def find_image_files (fs : FS) (root : FsPath) : List FsPath :=
  (filePaths fs).filter
    (fun p => root.isPrefixOf p && SUPPORTED_EXTENSIONS.contains (strToLower (fileSuffix (lastName p))))

structure MainOut where
  exitCode : Nat
  state : RunOut
deriving DecidableEq, Repr

def initOut (fs : FS) : RunOut := ⟨fs, 0, 0, [], false⟩

/-- `PicSorter.process_folder`: validate the root, enumerate, loop.  The
return value 1 covers both `sys.exit(1)` and the interpreter's exit status
after an uncaught exception. -/
def process_folder (dry : Bool) (oracle : RenameOracle) (fs : FS) (root : FsPath) : MainOut :=
  if ¬ fsExists fs root then ⟨1, initOut fs⟩
  else if root ∉ fs.dirs then ⟨1, initOut fs⟩
  else
    let out := runList dry oracle fs (find_image_files fs root)
    ⟨if out.crashed then 1 else 0, out⟩

/-- `main`: click validates `folder_path` with `Path(exists=True)` (usage
error, exit status 2) before `process_folder` runs. -/
def picsorter_main (dry : Bool) (oracle : RenameOracle) (fs : FS) (root : FsPath) : MainOut :=
  if ¬ fsExists fs root then ⟨2, initOut fs⟩
  else process_folder dry oracle fs root

deriving instance DecidableEq for Except

/-- The destination a trace entry actually claimed on disk: successful
renames, and the no-op case where the file already carries its derived name
(in both cases the destination exists on disk afterwards). -/
def claimOf (e : TraceEntry) : Option FsPath :=
  match e.result with
  | .inPlace d => some d
  | .renamed d => some d
  | _ => none

/-- The destination the deriver returned for a trace entry, if any. -/
def entryDest (e : TraceEntry) : Option FsPath :=
  match e.result with
  | .extractError => none
  | .inPlace d => some d
  | .wouldRename d => some d
  | .renamed d => some d
  | .renameFailed d => some d

/-- Relation between an earlier and a later trace entry: the later derived
destination never equals the earlier claimed destination. -/
def noReclaimRel (a b : TraceEntry) : Prop :=
  claimOf a = none ∨ claimOf a ≠ entryDest b

instance (a b : TraceEntry) : Decidable (noReclaimRel a b) := by
  unfold noReclaimRel; infer_instance

/-- Whether a per-file outcome touched the file set (only real renames do;
a failed rename attempt is included for the sake of the dry-run claim). -/
def isMutatingAction : StepResult → Bool
  | .renamed _ => true
  | .renameFailed _ => true
  | _ => false

/-- Two filesystems with identical files whose directory lists differ at most
in `no-exif`-named entries; the per-file pipeline cannot distinguish them. -/
def DirAgnostic (fs g : FS) : Prop :=
  fs.files = g.files ∧
  (∀ d ∈ fs.dirs, d ∈ g.dirs ∨ lastName d = "no-exif") ∧
  (∀ d ∈ g.dirs, d ∈ fs.dirs ∨ lastName d = "no-exif")

/-- Value of a named tag, parsed: helper for the spec-side extractor. -/
def tagParse (tags : List (String × String)) (name : String) : Option DateTime :=
  match tags.find? (fun e => e.1 == name) with
  | some e => parseExifDate e.2
  | none => none

/-- Modelled from the spec: the fixed, documented tag precedence the spec
prescribes for the extractor (capture-time tag first, then digitized-time
tag, then the generic modification tag), independent of metadata iteration
order.  This is the spec's wording, to be compared with the source's
`firstParse`. -/
def extract_by_priority (tags : List (String × String)) : Option DateTime :=
  match tagParse tags "DateTimeOriginal" with
  | some dt => some dt
  | none =>
    match tagParse tags "DateTimeDigitized" with
    | some dt => some dt
    | none => tagParse tags "DateTime"

/-- An oracle under which every rename succeeds. -/
def alwaysOk : RenameOracle := fun _ _ => false

/-- An oracle under which every rename raises an OS error. -/
def alwaysFail : RenameOracle := fun _ _ => true

/-- Fixture: a single image without EXIF data (fallback to mtime). -/
def fsA : FS := ⟨[(["d", "scan.png"], ⟨.exifData [], ⟨2022, 1, 1, 0, 0, 0⟩⟩)], [["d"]]⟩

/-- Fixture: two images with the same capture timestamp (destination
collision). -/
def fsB : FS :=
  ⟨[(["d", "a.jpg"], ⟨.exifData [("DateTimeOriginal", "2023:05:17 14:30:00")], ⟨2000, 1, 1, 0, 0, 0⟩⟩),
    (["d", "b.jpg"], ⟨.exifData [("DateTimeOriginal", "2023:05:17 14:30:00")], ⟨2000, 1, 1, 0, 0, 0⟩⟩)],
   [["d"]]⟩

/-- Fixture: a fallback image next to a plain file named `no-exif`, plus a
second, healthy candidate behind it. -/
def fsC : FS :=
  ⟨[(["d", "x.png"], ⟨.exifData [], ⟨2022, 1, 1, 0, 0, 0⟩⟩),
    (["d", "no-exif"], ⟨.openError, ⟨2022, 1, 1, 0, 0, 0⟩⟩),
    (["d", "y.png"], ⟨.exifData [("DateTimeOriginal", "2023:05:17 14:30:00")], ⟨2000, 1, 1, 0, 0, 0⟩⟩)],
   [["d"]]⟩

/-- Fixture: EXIF items listing the generic `DateTime` tag before the
capture-time tag `DateTimeOriginal`, both with parseable values. -/
def tagsP : List (String × String) :=
  [("DateTime", "2020:01:01 00:00:00"), ("DateTimeOriginal", "2021:06:15 12:00:00")]

/-- Fixture: a candidate whose derived base name and `_01` variant are both
taken already (third claimant of the same second). -/
def fsD : FS :=
  ⟨[(["d", "c.jpg"], ⟨.exifData [("DateTimeOriginal", "2023:05:17 14:30:00")], ⟨2000, 1, 1, 0, 0, 0⟩⟩),
    (["d", "20230517143000.jpg"], ⟨.exifData [], ⟨2000, 1, 1, 0, 0, 0⟩⟩),
    (["d", "20230517143000_01.jpg"], ⟨.exifData [], ⟨2000, 1, 1, 0, 0, 0⟩⟩)],
   [["d"]]⟩

/-- Fixture: an image that cannot be opened or decoded. -/
def fsE : FS := ⟨[(["d", "bad.jpg"], ⟨.openError, ⟨2000, 1, 1, 0, 0, 0⟩⟩)], [["d"]]⟩

/-- C9: the extractor never pairs a missing timestamp with the fallback flag:
every result is either `(some timestamp, flag)` or `(none, false)`. -/
theorem extract_result_shape (c : Option FileContent) :
    (∃ dt b, extract_date_taken c = (some dt, b)) ∨ extract_date_taken c = (none, false) := by
  match c with
  | none => exact Or.inr rfl
  | some fc =>
    match h : fc.meta with
    | .openError => right; simp [extract_date_taken, h]
    | .exifData tags =>
      match hp : firstParse tags with
      | some dt => exact Or.inl ⟨dt, false, by simp [extract_date_taken, h, hp]⟩
      | none => exact Or.inl ⟨fc.mtime, true, by simp [extract_date_taken, h, hp]⟩

theorem string_data_append (s t : String) : (s ++ t).data = s.data ++ t.data := rfl

theorem digitChar_toNat {n : Nat} (h : n < 10) : (digitChar n).toNat = 48 + n := by
  interval_cases n <;> decide

theorem digitChar_isDigit {n : Nat} (h : n < 10) : (digitChar n).isDigit := by
  interval_cases n <;> decide

theorem digitsVal_foldl (l : List Char) (i : Nat) :
    l.foldl (fun a c => a * 10 + (c.toNat - 48)) i = i * 10 ^ l.length + digitsVal l := by
  induction l generalizing i with
  | nil => simp [digitsVal]
  | cons c t ih =>
    simp only [List.foldl_cons, List.length_cons]
    rw [ih, show digitsVal (c :: t) = (0 * 10 + (c.toNat - 48)) * 10 ^ t.length + digitsVal t by
      simpa [digitsVal] using ih (0 * 10 + (c.toNat - 48))]
    ring

theorem digitsVal_append (xs ys : List Char) :
    digitsVal (xs ++ ys) = digitsVal xs * 10 ^ ys.length + digitsVal ys := by
  unfold digitsVal
  rw [List.foldl_append]
  exact digitsVal_foldl ys _

theorem digitsVal_natStrAux {fuel n : Nat} (h : n < fuel) : digitsVal (natStrAux fuel n) = n := by
  induction fuel generalizing n with
  | zero => omega
  | succ fuel ih =>
    unfold natStrAux
    by_cases h10 : n < 10
    · simp only [h10, if_true]
      simp [digitsVal, digitChar_toNat h10]
    · simp only [h10, if_false]
      rw [digitsVal_append]
      have hdiv : n / 10 < fuel :=
        lt_of_lt_of_le (Nat.div_lt_self (by omega) (by omega)) (by omega)
      rw [ih hdiv]
      have hm : n % 10 < 10 := Nat.mod_lt _ (by omega)
      simp [digitsVal, digitChar_toNat hm]
      omega

theorem digitsVal_natStr (n : Nat) : digitsVal (natStr n).data = n :=
  digitsVal_natStrAux (Nat.lt_succ_self n)

theorem digitsVal_replicate_zero (k : Nat) : digitsVal (List.replicate k '0') = 0 := by
  induction k with
  | zero => rfl
  | succ k ih =>
    rw [List.replicate_succ, show ('0' :: List.replicate k '0') = ['0'] ++ List.replicate k '0' from rfl,
      digitsVal_append, ih]
    have h0 : digitsVal ['0'] = 0 := rfl
    simp [h0]

theorem digitsVal_pad (w n : Nat) : digitsVal (pad w n).data = n := by
  show digitsVal (List.replicate _ '0' ++ (natStr n).data) = n
  rw [digitsVal_append, digitsVal_replicate_zero, digitsVal_natStr]
  omega

theorem pad_inj {w a b : Nat} (h : pad w a = pad w b) : a = b := by
  have h2 : digitsVal (pad w a).data = digitsVal (pad w b).data := by rw [h]
  rwa [digitsVal_pad, digitsVal_pad] at h2

theorem pad_length_ge (w n : Nat) : w ≤ (pad w n).data.length := by
  show w ≤ (List.replicate _ '0' ++ (natStr n).data).length
  simp only [List.length_append, List.length_replicate]
  omega

theorem natStrAux_length_le {fuel n w : Nat} (h : n < fuel) (hw : n < 10 ^ (w + 1)) :
    (natStrAux fuel n).length ≤ w + 1 := by
  induction fuel generalizing n w with
  | zero => omega
  | succ fuel ih =>
    unfold natStrAux
    by_cases h10 : n < 10
    · simp only [h10, if_true, List.length_singleton]
      omega
    · simp only [h10, if_false, List.length_append, List.length_singleton]
      cases w with
      | zero =>
        exfalso
        norm_num at hw
        omega
      | succ w' =>
        have hdiv10 : n / 10 < 10 ^ (w' + 1) := by
          rw [Nat.div_lt_iff_lt_mul (by omega)]
          calc n < 10 ^ (w' + 2) := hw
          _ = 10 ^ (w' + 1) * 10 := by ring
        have hdf : n / 10 < fuel :=
          lt_of_lt_of_le (Nat.div_lt_self (by omega) (by omega)) (by omega)
        have := ih hdf hdiv10
        omega

theorem pad_length_eq {w n : Nat} (hw : 1 ≤ w) (h : n < 10 ^ w) : (pad w n).data.length = w := by
  show (List.replicate _ '0' ++ (natStr n).data).length = w
  simp only [List.length_append, List.length_replicate]
  have hle : (natStr n).data.length ≤ w := by
    obtain ⟨w', rfl⟩ : ∃ w', w = w' + 1 := ⟨w - 1, by omega⟩
    exact natStrAux_length_le (Nat.lt_succ_self n) h
  omega

theorem natStrAux_digits {fuel n : Nat} (h : n < fuel) : ∀ c ∈ natStrAux fuel n, c.isDigit := by
  induction fuel generalizing n with
  | zero => omega
  | succ fuel ih =>
    unfold natStrAux
    by_cases h10 : n < 10
    · simp only [h10, if_true, List.mem_singleton]
      rintro c rfl
      exact digitChar_isDigit h10
    · simp only [h10, if_false]
      intro c hc
      rcases List.mem_append.mp hc with hc | hc
      · have hdiv : n / 10 < fuel :=
          lt_of_lt_of_le (Nat.div_lt_self (by omega) (by omega)) (by omega)
        exact ih hdiv c hc
      · rw [List.mem_singleton.mp hc]
        exact digitChar_isDigit (Nat.mod_lt _ (by omega))

theorem pad_digits (w n : Nat) : ∀ c ∈ (pad w n).data, c.isDigit := by
  intro c hc
  rcases List.mem_append.mp hc with hc | hc
  · rw [List.eq_of_mem_replicate hc]; decide
  · exact natStrAux_digits (Nat.lt_succ_self n) c hc

theorem dateStr_data (dt : DateTime) :
    (dateStr dt).data = (pad 4 dt.year).data ++ (pad 2 dt.month).data ++ (pad 2 dt.day).data ++
      (pad 2 dt.hour).data ++ (pad 2 dt.minute).data ++ (pad 2 dt.second).data := by
  simp [dateStr, string_data_append]

theorem dateStr_length_ge (dt : DateTime) : 14 ≤ (dateStr dt).data.length := by
  rw [dateStr_data]
  simp only [List.length_append]
  have h1 := pad_length_ge 4 dt.year
  have h2 := pad_length_ge 2 dt.month
  have h3 := pad_length_ge 2 dt.day
  have h4 := pad_length_ge 2 dt.hour
  have h5 := pad_length_ge 2 dt.minute
  have h6 := pad_length_ge 2 dt.second
  omega

theorem daysInMonth_le (y m : Nat) : daysInMonth y m ≤ 31 := by
  unfold daysInMonth
  split_ifs <;> omega

theorem dateStr_length_eq (dt : DateTime) (h : validDate dt) : (dateStr dt).data.length = 14 := by
  obtain ⟨h1, h2, h3, h4, h5, h6, h7, h8, h9⟩ := h
  have hday := daysInMonth_le dt.year dt.month
  rw [dateStr_data]
  simp only [List.length_append]
  rw [pad_length_eq (by omega) (by norm_num; omega),
    pad_length_eq (by omega) (by norm_num; omega),
    pad_length_eq (by omega) (by norm_num; omega),
    pad_length_eq (by omega) (by norm_num; omega),
    pad_length_eq (by omega) (by norm_num; omega),
    pad_length_eq (by omega) (by norm_num; omega)]

theorem dateStr_digits (dt : DateTime) : ∀ c ∈ (dateStr dt).data, c.isDigit := by
  rw [dateStr_data]
  intro c hc
  simp only [List.mem_append] at hc
  rcases hc with ((((hc | hc) | hc) | hc) | hc) | hc <;>
    first
      | exact pad_digits 4 dt.year c hc
      | exact pad_digits 2 dt.month c hc
      | exact pad_digits 2 dt.day c hc
      | exact pad_digits 2 dt.hour c hc
      | exact pad_digits 2 dt.minute c hc
      | exact pad_digits 2 dt.second c hc

theorem candName_zero (ds ext : String) : candName ds ext 0 = ds ++ ext := rfl

theorem candName_succ (ds ext : String) (n : Nat) :
    candName ds ext (n + 1) = ds ++ "_" ++ pad 2 (n + 1) ++ ext := rfl

theorem candName_length_ge (ds ext : String) (n : Nat) :
    ds.data.length ≤ (candName ds ext n).data.length := by
  cases n with
  | zero => simp [candName, string_data_append]
  | succ n => simp only [candName, string_data_append, List.length_append]; omega

theorem candName_ne_of_short {ds s : String} (hlen : s.data.length < ds.data.length)
    (ext : String) (n : Nat) : candName ds ext n ≠ s := by
  intro h
  have h2 := congrArg (fun t => t.data.length) h
  simp only at h2
  have := candName_length_ge ds ext n
  omega

theorem candName_inj {ds ext : String} : ∀ {a b : Nat}, candName ds ext a = candName ds ext b → a = b
  | 0, 0, _ => rfl
  | 0, b+1, h => by
    exfalso
    have hd := congrArg String.data h
    simp only [candName, string_data_append, List.append_assoc] at hd
    have h2 := List.append_cancel_left hd
    have hlen := congrArg List.length h2
    simp [List.length_append] at hlen
    omega
  | a+1, 0, h => by
    exfalso
    have hd := congrArg String.data h
    simp only [candName, string_data_append, List.append_assoc] at hd
    have h2 := (List.append_cancel_left hd).symm
    have hlen := congrArg List.length h2
    simp [List.length_append] at hlen
    omega
  | a+1, b+1, h => by
    have hd := congrArg String.data h
    simp only [candName, string_data_append, List.append_assoc] at hd
    have h2 := List.append_cancel_left hd
    simp only [List.cons_append, List.nil_append, List.cons.injEq, true_and] at h2
    have hlen := congrArg List.length h2
    simp only [List.length_append] at hlen
    have hpad : (pad 2 (a + 1)).data = (pad 2 (b + 1)).data := (List.append_inj h2 (by omega)).1
    have := pad_inj (String.ext hpad)
    omega

theorem lastName_append (xs : FsPath) (y : String) : lastName (xs ++ [y]) = y := by
  simp [lastName]

theorem append_singleton_ne (xs : FsPath) (y : String) : xs ++ [y] ≠ xs := by
  intro h
  have := congrArg List.length h
  simp at this

theorem allPaths_length (fs : FS) : (allPaths fs).length = fsSize fs := by
  simp [allPaths, filePaths, fsSize]

theorem exit_exists (fs : FS) (orig tdir : FsPath) (ds ext : String) :
    ∃ m, m ≤ fsSize fs ∧
      ¬(fsExists fs (tdir ++ [candName ds ext m]) ∧ tdir ++ [candName ds ext m] ≠ orig) := by
  by_contra hcon
  push_neg at hcon
  have hall : ∀ m, m ≤ fsSize fs → fsExists fs (tdir ++ [candName ds ext m]) := by
    intro m hm
    exact (hcon m hm).1
  have hcard : (Finset.univ : Finset (Fin (fsSize fs + 1))).card ≤ (allPaths fs).toFinset.card := by
    apply Finset.card_le_card_of_injOn (fun m : Fin (fsSize fs + 1) => tdir ++ [candName ds ext m.1])
    · intro m _
      exact List.mem_toFinset.mpr (hall m.1 (by omega))
    · intro m _ m' _ hmm
      have h2 := List.append_cancel_left hmm
      simp only [List.cons.injEq, and_true] at h2
      exact Fin.ext (candName_inj h2)
  rw [Finset.card_univ, Fintype.card_fin] at hcard
  have hle := List.toFinset_card_le (allPaths fs)
  rw [allPaths_length] at hle
  omega

theorem resolveLoop_eq_of (fs : FS) (orig tdir : FsPath) (ds ext : String) :
    ∀ (fuel n j : Nat), n ≤ j → j ≤ n + fuel →
    (∀ k, n ≤ k → k < j →
      fsExists fs (tdir ++ [candName ds ext k]) ∧ tdir ++ [candName ds ext k] ≠ orig) →
    ¬(fsExists fs (tdir ++ [candName ds ext j]) ∧ tdir ++ [candName ds ext j] ≠ orig) →
    resolveLoop fs orig tdir ds ext fuel n = tdir ++ [candName ds ext j]
  | 0, n, j, h1, h2, _, _ => by
    have hj : j = n := by omega
    subst hj
    rfl
  | fuel+1, n, j, h1, h2, hcoll, hfree => by
    unfold resolveLoop
    by_cases hnj : n = j
    · subst hnj
      simp only [if_neg hfree]
    · have hn := hcoll n le_rfl (by omega)
      simp only [if_pos hn]
      exact resolveLoop_eq_of fs orig tdir ds ext fuel (n + 1) j (by omega) (by omega)
        (fun k hk1 hk2 => hcoll k (by omega) hk2) hfree

theorem resolveLoop_eq_find (fs : FS) (orig tdir : FsPath) (ds ext : String) {fuel : Nat}
    (hex : ∃ k, ¬(fsExists fs (tdir ++ [candName ds ext k]) ∧ tdir ++ [candName ds ext k] ≠ orig))
    (hf : Nat.find hex ≤ fuel) :
    resolveLoop fs orig tdir ds ext fuel 0 = tdir ++ [candName ds ext (Nat.find hex)] :=
  resolveLoop_eq_of fs orig tdir ds ext fuel 0 (Nat.find hex) (Nat.zero_le _) (by omega)
    (fun k _ hk => not_not.mp (Nat.find_min hex hk)) (Nat.find_spec hex)

theorem resolveLoop_exit (fs : FS) (orig tdir : FsPath) (ds ext : String) {fuel : Nat}
    (hf : fsSize fs + 1 ≤ fuel) :
    ¬(fsExists fs (resolveLoop fs orig tdir ds ext fuel 0) ∧
      resolveLoop fs orig tdir ds ext fuel 0 ≠ orig) := by
  obtain ⟨m, hm, hPm⟩ := exit_exists fs orig tdir ds ext
  have hex : ∃ k, ¬(fsExists fs (tdir ++ [candName ds ext k]) ∧ tdir ++ [candName ds ext k] ≠ orig) :=
    ⟨m, hPm⟩
  rw [resolveLoop_eq_find fs orig tdir ds ext hex (le_trans (Nat.find_min' hex hPm) (by omega))]
  exact Nat.find_spec hex

theorem resolveLoop_shape (fs : FS) (orig tdir : FsPath) (ds ext : String) {fuel : Nat}
    (hf : fsSize fs + 1 ≤ fuel) :
    ∃ j, resolveLoop fs orig tdir ds ext fuel 0 = tdir ++ [candName ds ext j] := by
  obtain ⟨m, hm, hPm⟩ := exit_exists fs orig tdir ds ext
  have hex : ∃ k, ¬(fsExists fs (tdir ++ [candName ds ext k]) ∧ tdir ++ [candName ds ext k] ≠ orig) :=
    ⟨m, hPm⟩
  exact ⟨Nat.find hex, resolveLoop_eq_find fs orig tdir ds ext hex
    (le_trans (Nat.find_min' hex hPm) (by omega))⟩

theorem colliding_bound (fs : FS) (tdir : FsPath) (ds ext : String) (j : Nat)
    (h : ∀ k, k < j → fsExists fs (tdir ++ [candName ds ext k])) : j ≤ fsSize fs := by
  have hcard : (Finset.univ : Finset (Fin j)).card ≤ (allPaths fs).toFinset.card := by
    apply Finset.card_le_card_of_injOn (fun m : Fin j => tdir ++ [candName ds ext m.1])
    · intro m _
      exact List.mem_toFinset.mpr (h m.1 m.2)
    · intro m _ m' _ hmm
      have h2 := List.append_cancel_left hmm
      simp only [List.cons.injEq, and_true] at h2
      exact Fin.ext (candName_inj h2)
  rw [Finset.card_univ, Fintype.card_fin] at hcard
  have hle := List.toFinset_card_le (allPaths fs)
  rw [allPaths_length] at hle
  omega

theorem mkdir_ok_elim {fs fs1 : FS} {d : FsPath} (h : mkdirExistOk fs d = .ok fs1) :
    d ∉ filePaths fs ∧
    ((d ∈ fs.dirs ∧ fs1 = fs) ∨ (d ∉ fs.dirs ∧ fs1 = { fs with dirs := fs.dirs ++ [d] })) := by
  unfold mkdirExistOk at h
  by_cases h1 : d ∈ filePaths fs
  · rw [if_pos h1] at h
    exact Except.noConfusion h
  · rw [if_neg h1] at h
    by_cases h2 : d ∈ fs.dirs
    · rw [if_pos h2] at h
      injection h with h
      exact ⟨h1, Or.inl ⟨h2, h.symm⟩⟩
    · rw [if_neg h2] at h
      injection h with h
      exact ⟨h1, Or.inr ⟨h2, h.symm⟩⟩

theorem fsExists_append_dir (fs : FS) (d q : FsPath) (hq : q ≠ d) :
    fsExists { fs with dirs := fs.dirs ++ [d] } q ↔ fsExists fs q := by
  unfold fsExists allPaths filePaths
  simp only [List.mem_append, List.mem_singleton]
  constructor
  · rintro (h | h | h)
    · exact Or.inl h
    · exact Or.inr h
    · exact absurd h hq
  · rintro (h | h)
    · exact Or.inl h
    · exact Or.inr (Or.inl h)

theorem fsExists_mkdir_ok {fs fs1 : FS} {d : FsPath} (h : mkdirExistOk fs d = .ok fs1)
    {q : FsPath} (hq : q ≠ d) : fsExists fs1 q ↔ fsExists fs q := by
  obtain ⟨_, hc⟩ := mkdir_ok_elim h
  rcases hc with ⟨_, rfl⟩ | ⟨_, rfl⟩
  · exact Iff.rfl
  · exact fsExists_append_dir fs d q hq

theorem have_noexif_len : ("no-exif" : String).data.length = 7 := rfl

theorem candName_dateStr_ne_noexif (dt : DateTime) (ext : String) (n : Nat) :
    candName (dateStr dt) ext n ≠ "no-exif" := by
  refine candName_ne_of_short ?_ ext n
  have h := dateStr_length_ge dt
  rw [have_noexif_len]
  omega

theorem candPath_ne_noexif_dir (p : FsPath) (dt : DateTime) (fb : Bool) (k : Nat) :
    candPath p dt fb k ≠ parentDir p ++ ["no-exif"] := by
  unfold candPath targetDir
  cases fb with
  | true =>
    rw [if_pos rfl]
    exact append_singleton_ne _ _
  | false =>
    rw [if_neg (fun hx => Bool.noConfusion hx)]
    intro h
    have := List.append_cancel_left h
    simp only [List.cons.injEq, and_true] at this
    exact candName_dateStr_ne_noexif dt (extOf p) k this

theorem generate_unfold_ok {fs fsm : FS} {p : FsPath} {dt : DateTime} {fb : Bool}
    (hm : (if fb then mkdirExistOk fs (parentDir p ++ ["no-exif"]) else Except.ok fs) = .ok fsm) :
    generate_new_filename fs p dt fb =
      .ok (resolveLoop fsm p (targetDir p fb) (dateStr dt) (extOf p) (fsSize fsm + 1) 0, fsm) := by
  unfold generate_new_filename
  rw [hm]

theorem generate_unfold_error {fs : FS} {p : FsPath} {dt : DateTime} {fb : Bool} {e : Unit}
    (hm : (if fb then mkdirExistOk fs (parentDir p ++ ["no-exif"]) else Except.ok fs) = .error e) :
    generate_new_filename fs p dt fb = .error e := by
  unfold generate_new_filename
  rw [hm]

theorem generate_eq_candPath (fs : FS) (p : FsPath) (dt : DateTime) (fb : Bool) (j : Nat)
    (hmk : fb = true → parentDir p ++ ["no-exif"] ∉ filePaths fs)
    (hcoll : ∀ k, k < j → fsExists fs (candPath p dt fb k) ∧ candPath p dt fb k ≠ p)
    (hfree : ¬(fsExists fs (candPath p dt fb j) ∧ candPath p dt fb j ≠ p)) :
    ∃ fs1, generate_new_filename fs p dt fb = .ok (candPath p dt fb j, fs1) ∧
      fs1.files = fs.files ∧
      fs1.dirs = (if fb = true ∧ parentDir p ++ ["no-exif"] ∉ fs.dirs
                  then fs.dirs ++ [parentDir p ++ ["no-exif"]] else fs.dirs) := by
  have hstep : ∃ fs1,
      (if fb then mkdirExistOk fs (parentDir p ++ ["no-exif"]) else Except.ok fs) = .ok fs1 ∧
      fs1.files = fs.files ∧
      fs1.dirs = (if fb = true ∧ parentDir p ++ ["no-exif"] ∉ fs.dirs
                  then fs.dirs ++ [parentDir p ++ ["no-exif"]] else fs.dirs) ∧
      (∀ q : FsPath, q ≠ parentDir p ++ ["no-exif"] → (fsExists fs1 q ↔ fsExists fs q)) := by
    cases fb with
    | false =>
      refine ⟨fs, ?_, rfl, ?_, fun q _ => Iff.rfl⟩
      · rw [if_neg (fun hx => Bool.noConfusion hx)]
      · rw [if_neg (fun hx => Bool.noConfusion hx.1)]
    | true =>
      have hnf := hmk rfl
      by_cases hd : parentDir p ++ ["no-exif"] ∈ fs.dirs
      · refine ⟨fs, ?_, rfl, ?_, fun q _ => Iff.rfl⟩
        · rw [if_pos rfl]
          unfold mkdirExistOk
          rw [if_neg hnf, if_pos hd]
        · rw [if_neg (fun hx => hx.2 hd)]
      · refine ⟨{ fs with dirs := fs.dirs ++ [parentDir p ++ ["no-exif"]] }, ?_, rfl, ?_, ?_⟩
        · rw [if_pos rfl]
          unfold mkdirExistOk
          rw [if_neg hnf, if_neg hd]
        · rw [if_pos ⟨rfl, hd⟩]
        · intro q hq
          exact fsExists_append_dir fs _ q hq
  obtain ⟨fs1, hm, hfiles, hdirs, hiff⟩ := hstep
  have hiffc : ∀ k, fsExists fs1 (candPath p dt fb k) ↔ fsExists fs (candPath p dt fb k) :=
    fun k => hiff _ (candPath_ne_noexif_dir p dt fb k)
  have hcoll1 : ∀ k, k < j → fsExists fs1 (candPath p dt fb k) ∧ candPath p dt fb k ≠ p := by
    intro k hk
    exact ⟨(hiffc k).mpr (hcoll k hk).1, (hcoll k hk).2⟩
  have hfree1 : ¬(fsExists fs1 (candPath p dt fb j) ∧ candPath p dt fb j ≠ p) := by
    intro hx
    exact hfree ⟨(hiffc j).mp hx.1, hx.2⟩
  have hj : j ≤ fsSize fs1 :=
    colliding_bound fs1 (targetDir p fb) (dateStr dt) (extOf p) j (fun k hk => (hcoll1 k hk).1)
  refine ⟨fs1, ?_, hfiles, hdirs⟩
  rw [generate_unfold_ok hm,
    resolveLoop_eq_of fs1 p (targetDir p fb) (dateStr dt) (extOf p)
      (fsSize fs1 + 1) 0 j (Nat.zero_le _) (by omega) (fun k _ hk => hcoll1 k hk) hfree1]
  rfl

theorem generate_ok_spec {fs : FS} {p : FsPath} {dt : DateTime} {fb : Bool} {np : FsPath} {fs1 : FS}
    (h : generate_new_filename fs p dt fb = .ok (np, fs1)) :
    fs1.files = fs.files ∧
    (¬ fsExists fs1 np ∨ np = p) ∧
    (∀ d ∈ fs.dirs, d ∈ fs1.dirs) ∧
    (∀ d ∈ fs1.dirs, d ∈ fs.dirs ∨ lastName d = "no-exif") ∧
    (∃ j, np = candPath p dt fb j) := by
  cases hm : (if fb then mkdirExistOk fs (parentDir p ++ ["no-exif"]) else Except.ok fs) with
  | error e =>
    rw [generate_unfold_error hm] at h
    exact Except.noConfusion h
  | ok fsm =>
    rw [generate_unfold_ok hm] at h
    injection h with h
    injection h with hnp hfs
    subst hfs
    have hmfl : fsm.files = fs.files ∧ (∀ d ∈ fs.dirs, d ∈ fsm.dirs) ∧
        (∀ d ∈ fsm.dirs, d ∈ fs.dirs ∨ lastName d = "no-exif") := by
      cases fb with
      | false =>
        rw [if_neg (fun hx => Bool.noConfusion hx)] at hm
        injection hm with hm
        subst hm
        exact ⟨rfl, fun d hd => hd, fun d hd => Or.inl hd⟩
      | true =>
        rw [if_pos rfl] at hm
        obtain ⟨_, hc⟩ := mkdir_ok_elim hm
        rcases hc with ⟨_, rfl⟩ | ⟨_, rfl⟩
        · exact ⟨rfl, fun d hd => hd, fun d hd => Or.inl hd⟩
        · refine ⟨rfl, fun d hd => List.mem_append_left _ hd, fun d hd => ?_⟩
          rcases List.mem_append.mp hd with hd | hd
          · exact Or.inl hd
          · rw [List.mem_singleton.mp hd]
            exact Or.inr (lastName_append _ _)
    refine ⟨hmfl.1, ?_, hmfl.2.1, hmfl.2.2, ?_⟩
    · have hx := resolveLoop_exit fsm p (targetDir p fb) (dateStr dt) (extOf p) (le_refl _)
      rw [hnp] at hx
      rcases not_and_or.mp hx with hy | hy
      · exact Or.inl hy
      · exact Or.inr (not_not.mp hy)
    · obtain ⟨jj, hjj⟩ := resolveLoop_shape fsm p (targetDir p fb) (dateStr dt) (extOf p) (le_refl _)
      exact ⟨jj, by rw [← hnp, hjj]; rfl⟩

theorem generate_error_iff (fs : FS) (p : FsPath) (dt : DateTime) (fb : Bool) :
    generate_new_filename fs p dt fb = .error () ↔
      (fb = true ∧ parentDir p ++ ["no-exif"] ∈ filePaths fs) := by
  constructor
  · intro h
    cases fb with
    | false =>
      have hm : (if false then mkdirExistOk fs (parentDir p ++ ["no-exif"]) else Except.ok fs) =
          Except.ok fs := by
        rw [if_neg (fun hx => Bool.noConfusion hx)]
      rw [generate_unfold_ok hm] at h
      exact Except.noConfusion h
    | true =>
      refine ⟨rfl, ?_⟩
      by_contra hnf
      cases hmc : mkdirExistOk fs (parentDir p ++ ["no-exif"]) with
      | error e =>
        exfalso
        unfold mkdirExistOk at hmc
        rw [if_neg hnf] at hmc
        split_ifs at hmc
      | ok fsm =>
        rw [generate_unfold_ok (by rw [if_pos rfl]; exact hmc)] at h
        exact Except.noConfusion h
  · rintro ⟨rfl, hmem⟩
    have hmc : mkdirExistOk fs (parentDir p ++ ["no-exif"]) = .error () := by
      unfold mkdirExistOk
      rw [if_pos hmem]
    exact generate_unfold_error (by rw [if_pos rfl]; exact hmc)

theorem firstParse_cons (t v : String) (rest : List (String × String)) :
    firstParse ((t, v) :: rest) =
      if recognizedDateTag t then
        match parseExifDate v with
        | some dt => some dt
        | none => firstParse rest
      else firstParse rest := rfl

/-- C4: when the candidate destination exists on disk and is not the original
file itself, `generate_new_filename` appends a two-digit zero-padded counter
before the extension and retries, incrementing until a free name is found:
if candidates `0, ..., j-1` all collide and candidate `j` is free, the result
is candidate `j`, whose name carries `_{counter:02d}` (so `_01` for the second
claimant of a base name and `_02` for the third). -/
theorem collision_counter_spec (fs : FS) (p : FsPath) (dt : DateTime) (fb : Bool) (j : Nat)
    (hmk : fb = true → parentDir p ++ ["no-exif"] ∉ filePaths fs)
    (hcoll : ∀ k, k < j → fsExists fs (candPath p dt fb k) ∧ candPath p dt fb k ≠ p)
    (hfree : ¬(fsExists fs (candPath p dt fb j) ∧ candPath p dt fb j ≠ p)) :
    (∃ fs1, generate_new_filename fs p dt fb = .ok (candPath p dt fb j, fs1)) ∧
    (∀ k, candPath p dt fb (k + 1) =
      targetDir p fb ++ [dateStr dt ++ "_" ++ pad 2 (k + 1) ++ extOf p]) ∧
    pad 2 1 = "01" ∧ pad 2 2 = "02" := by
  obtain ⟨fs1, hg, -, -⟩ := generate_eq_candPath fs p dt fb j hmk hcoll hfree
  exact ⟨⟨fs1, hg⟩, fun k => rfl, by decide, by decide⟩

/-- Witness for the collision-policy theorem: with `20230517143000.jpg` and
`20230517143000_01.jpg` already on disk, the third claimant `c.jpg` is sent to
`20230517143000_02.jpg`. -/
theorem collision_counter_spec_witness :
    ∃ fs1, generate_new_filename fsD ["d", "c.jpg"] ⟨2023, 5, 17, 14, 30, 0⟩ false =
      .ok (["d", "20230517143000_02.jpg"], fs1) := by
  have h := (collision_counter_spec fsD ["d", "c.jpg"] ⟨2023, 5, 17, 14, 30, 0⟩ false 2
    (by decide) (by decide) (by decide)).1
  rwa [show candPath ["d", "c.jpg"] ⟨2023, 5, 17, 14, 30, 0⟩ false 2
    = ["d", "20230517143000_02.jpg"] by decide] at h

/-- C5: the derived filename is the timestamp rendered as `yyyyMMddHHmmss`
(14 zero-padded decimal digits) followed by the lowercased original
extension; the destination directory is the original parent, or its `no-exif`
subdirectory (created if absent) exactly when the mtime fallback was used.
Stated for a collision-free base name (collision suffixes belong to the
collision-policy claim). -/
theorem derived_name_format_and_target (fs : FS) (p : FsPath) (dt : DateTime) (fb : Bool)
    (hvalid : validDate dt)
    (hmk : fb = true → parentDir p ++ ["no-exif"] ∉ filePaths fs)
    (hfree : ¬(fsExists fs (candPath p dt fb 0) ∧ candPath p dt fb 0 ≠ p)) :
    (∃ fs1, generate_new_filename fs p dt fb = .ok (candPath p dt fb 0, fs1) ∧
       fs1.files = fs.files ∧
       fs1.dirs = (if fb = true ∧ parentDir p ++ ["no-exif"] ∉ fs.dirs
                   then fs.dirs ++ [parentDir p ++ ["no-exif"]] else fs.dirs)) ∧
    candPath p dt fb 0 = targetDir p fb ++ [dateStr dt ++ extOf p] ∧
    targetDir p fb = (if fb then parentDir p ++ ["no-exif"] else parentDir p) ∧
    extOf p = strToLower (fileSuffix (lastName p)) ∧
    (dateStr dt).data.length = 14 ∧
    (∀ c ∈ (dateStr dt).data, c.isDigit) := by
  exact ⟨generate_eq_candPath fs p dt fb 0 hmk (fun k hk => absurd hk (Nat.not_lt_zero k)) hfree,
    rfl, rfl, rfl, dateStr_length_eq dt hvalid, dateStr_digits dt⟩

/-- Witness for the filename-format theorem: the EXIF-less `scan.png` with
mtime 2022-01-01 00:00:00 is destined for `no-exif/20220101000000.png`, with
the `no-exif` directory newly created. -/
theorem derived_name_format_and_target_witness :
    (∃ fs1, generate_new_filename fsA ["d", "scan.png"] ⟨2022, 1, 1, 0, 0, 0⟩ true =
       .ok (["d", "no-exif", "20220101000000.png"], fs1) ∧
       fs1.files = fsA.files ∧ fs1.dirs = [["d"], ["d", "no-exif"]]) ∧
    (dateStr ⟨2022, 1, 1, 0, 0, 0⟩).data.length = 14 := by
  obtain ⟨⟨fs1, hg, hf, hd⟩, -, -, -, hlen, -⟩ :=
    derived_name_format_and_target fsA ["d", "scan.png"] ⟨2022, 1, 1, 0, 0, 0⟩ true
      (by decide) (by decide) (by decide)
  refine ⟨⟨fs1, ?_, hf, ?_⟩, hlen⟩
  · rwa [show candPath ["d", "scan.png"] ⟨2022, 1, 1, 0, 0, 0⟩ true 0
      = ["d", "no-exif", "20220101000000.png"] by decide] at hg
  · rw [hd]; decide

/-- C3 (amended): the extractor scans the EXIF items in metadata iteration
order and returns, with the fallback flag clear, the value of the first
recognized date tag (`DateTime`, `DateTimeOriginal` or `DateTimeDigitized`)
that parses as `YYYY:MM:DD HH:MM:SS`; no fixed priority among the three tags
is applied beyond that iteration order. -/
theorem extract_first_recognized_parse (pre : List (String × String)) (t v : String)
    (post : List (String × String)) (dt : DateTime) (mt : DateTime)
    (hpre : ∀ e ∈ pre, recognizedDateTag e.1 = false ∨ parseExifDate e.2 = none)
    (ht : recognizedDateTag t = true) (hv : parseExifDate v = some dt) :
    extract_date_taken (some ⟨.exifData (pre ++ (t, v) :: post), mt⟩) = (some dt, false) := by
  have hfp : firstParse (pre ++ (t, v) :: post) = some dt := by
    induction pre with
    | nil =>
      rw [List.nil_append, firstParse_cons, if_pos ht, hv]
    | cons e pre ih =>
      have ih2 := ih (fun x hx => hpre x (List.mem_cons_of_mem e hx))
      rw [List.cons_append, show e = (e.1, e.2) from rfl, firstParse_cons]
      by_cases hr : recognizedDateTag e.1 = true
      · rw [if_pos hr]
        rcases hpre e (List.mem_cons_self e pre) with he | he
        · rw [he] at hr
          exact Bool.noConfusion hr
        · rw [he]
          exact ih2
      · rw [if_neg hr]
        exact ih2
  have hunf : extract_date_taken (some ⟨.exifData (pre ++ (t, v) :: post), mt⟩) =
      match firstParse (pre ++ (t, v) :: post) with
      | some d => (some d, false)
      | none => (some mt, true) := rfl
  rw [hunf, hfp]

/-- Witness for the iteration-order extractor theorem: an unrecognized tag
followed by a parseable `DateTimeOriginal`. -/
theorem extract_first_recognized_parse_witness :
    extract_date_taken (some ⟨.exifData
        [("Orientation", "1"), ("DateTimeOriginal", "2023:05:17 14:30:00")],
      ⟨2000, 1, 1, 0, 0, 0⟩⟩) = (some ⟨2023, 5, 17, 14, 30, 0⟩, false) :=
  extract_first_recognized_parse [("Orientation", "1")] "DateTimeOriginal" "2023:05:17 14:30:00"
    [] ⟨2023, 5, 17, 14, 30, 0⟩ ⟨2000, 1, 1, 0, 0, 0⟩ (by decide) (by decide) (by decide)

/-- C3 counterexample: when the metadata lists `DateTime` before
`DateTimeOriginal`, the source's extractor returns the `DateTime` value,
while the fixed-priority rule the claim states (`DateTimeOriginal` first)
would return the other timestamp. -/
theorem tag_priority_counterexample :
    extract_date_taken (some ⟨.exifData tagsP, ⟨2000, 1, 1, 0, 0, 0⟩⟩) =
      (some ⟨2020, 1, 1, 0, 0, 0⟩, false) ∧
    extract_by_priority tagsP = some ⟨2021, 6, 15, 12, 0, 0⟩ ∧
    firstParse tagsP ≠ extract_by_priority tagsP := by
  exact ⟨by decide, by decide, by decide⟩

/-- C2 (code evaluated at the failing input): after a first real run moves
the EXIF-less `scan.png` into `no-exif`, a second run on the same directory
is not a no-op; it renames the file again, into a nested `no-exif/no-exif`
directory. -/
theorem second_run_renames_again :
    filePaths (picsorter_main false alwaysOk fsA ["d"]).state.fs =
      [["d", "no-exif", "20220101000000.png"]] ∧
    filePaths (picsorter_main false alwaysOk
        (picsorter_main false alwaysOk fsA ["d"]).state.fs ["d"]).state.fs =
      [["d", "no-exif", "no-exif", "20220101000000.png"]] ∧
    (picsorter_main false alwaysOk
        (picsorter_main false alwaysOk fsA ["d"]).state.fs ["d"]).state.trace =
      [⟨["d", "no-exif", "20220101000000.png"],
        .renamed ["d", "no-exif", "no-exif", "20220101000000.png"]⟩] := by
  exact ⟨by decide, by decide, by decide⟩

/-- C1 counterexample: a dry run is not mutation-free and its reporting does
not match a real run.  On a fallback candidate it creates the `no-exif`
directory, and on two same-timestamp candidates its reported destinations
(`wouldRename`) differ from the destinations a real run claims (`renamed`),
because nothing is renamed along the way. -/
theorem dry_run_mutates_counterexample :
    ((picsorter_main true alwaysOk fsA ["d"]).state.fs.dirs = [["d"], ["d", "no-exif"]] ∧
     fsA.dirs = [["d"]]) ∧
    ((picsorter_main true alwaysOk fsB ["d"]).state.trace.map entryDest =
       [some ["d", "20230517143000.jpg"], some ["d", "20230517143000.jpg"]] ∧
     (picsorter_main false alwaysOk fsB ["d"]).state.trace.map entryDest =
       [some ["d", "20230517143000.jpg"], some ["d", "20230517143000_01.jpg"]]) := by
  exact ⟨⟨by decide, rfl⟩, by decide, by decide⟩

theorem runList_nil (dry : Bool) (oracle : RenameOracle) (fs : FS) :
    runList dry oracle fs [] = ⟨fs, 0, 0, [], false⟩ := rfl

theorem runList_cons_err {dry : Bool} {oracle : RenameOracle} {fs : FS} {p : FsPath}
    {rest : List FsPath} {b : Bool}
    (hx : extract_date_taken (lookupFile fs p) = (none, b)) :
    runList dry oracle fs (p :: rest) =
      ⟨(runList dry oracle fs rest).fs, (runList dry oracle fs rest).processed,
       (runList dry oracle fs rest).errors + 1,
       ⟨p, .extractError⟩ :: (runList dry oracle fs rest).trace,
       (runList dry oracle fs rest).crashed⟩ := by
  simp only [runList, hx]

theorem runList_cons_crash {dry : Bool} {oracle : RenameOracle} {fs : FS} {p : FsPath}
    {rest : List FsPath} {dt : DateTime} {fb : Bool} {e : Unit}
    (hx : extract_date_taken (lookupFile fs p) = (some dt, fb))
    (hg : generate_new_filename fs p dt fb = .error e) :
    runList dry oracle fs (p :: rest) = ⟨fs, 0, 0, [], true⟩ := by
  simp only [runList, hx, hg]

theorem runList_cons_ok_true {dry : Bool} {oracle : RenameOracle} {fs : FS} {p : FsPath}
    {rest : List FsPath} {dt : DateTime} {fb : Bool} {np : FsPath} {fs1 fs2 : FS}
    {res : StepResult}
    (hx : extract_date_taken (lookupFile fs p) = (some dt, fb))
    (hg : generate_new_filename fs p dt fb = .ok (np, fs1))
    (hr : rename_file dry oracle fs1 p np = (true, fs2, res)) :
    runList dry oracle fs (p :: rest) =
      ⟨(runList dry oracle fs2 rest).fs, (runList dry oracle fs2 rest).processed + 1,
       (runList dry oracle fs2 rest).errors,
       ⟨p, res⟩ :: (runList dry oracle fs2 rest).trace,
       (runList dry oracle fs2 rest).crashed⟩ := by
  simp only [runList, hx, hg, hr]

theorem runList_cons_ok_false {dry : Bool} {oracle : RenameOracle} {fs : FS} {p : FsPath}
    {rest : List FsPath} {dt : DateTime} {fb : Bool} {np : FsPath} {fs1 fs2 : FS}
    {res : StepResult}
    (hx : extract_date_taken (lookupFile fs p) = (some dt, fb))
    (hg : generate_new_filename fs p dt fb = .ok (np, fs1))
    (hr : rename_file dry oracle fs1 p np = (false, fs2, res)) :
    runList dry oracle fs (p :: rest) =
      ⟨(runList dry oracle fs2 rest).fs, (runList dry oracle fs2 rest).processed,
       (runList dry oracle fs2 rest).errors + 1,
       ⟨p, res⟩ :: (runList dry oracle fs2 rest).trace,
       (runList dry oracle fs2 rest).crashed⟩ := by
  simp only [runList, hx, hg, hr]

theorem rename_file_eq_inPlace (dry : Bool) (oracle : RenameOracle) (fs : FS) {p np : FsPath}
    (h : p = np) : rename_file dry oracle fs p np = (true, fs, .inPlace np) := by
  unfold rename_file
  rw [if_pos h]

theorem rename_file_eq_would (oracle : RenameOracle) (fs : FS) {p np : FsPath}
    (h : p ≠ np) : rename_file true oracle fs p np = (true, fs, .wouldRename np) := by
  unfold rename_file
  rw [if_neg h, if_pos rfl]

theorem rename_file_eq_failed (oracle : RenameOracle) (fs : FS) {p np : FsPath}
    (h : p ≠ np) (ho : oracle p np = true) :
    rename_file false oracle fs p np = (false, fs, .renameFailed np) := by
  unfold rename_file
  rw [if_neg h, if_neg (fun hx => Bool.noConfusion hx), if_pos ho]

theorem rename_file_eq_renamed (oracle : RenameOracle) (fs : FS) {p np : FsPath}
    (h : p ≠ np) (ho : oracle p np = false) :
    rename_file false oracle fs p np = (true, fsRename fs p np, .renamed np) := by
  unfold rename_file
  rw [if_neg h, if_neg (fun hx => Bool.noConfusion hx), if_neg (by rw [ho]; exact Bool.noConfusion)]

theorem rename_file_true_dry (oracle : RenameOracle) (fs : FS) (p np : FsPath) :
    ∃ res, rename_file true oracle fs p np = (true, fs, res) ∧
      isMutatingAction res = false ∧ (res = .inPlace np ∨ res = .wouldRename np) := by
  by_cases h : p = np
  · exact ⟨.inPlace np, rename_file_eq_inPlace true oracle fs h, rfl, Or.inl rfl⟩
  · exact ⟨.wouldRename np, rename_file_eq_would oracle fs h, rfl, Or.inr rfl⟩

theorem picsorter_main_invalid_missing {fs : FS} {root : FsPath} (h1 : ¬ fsExists fs root)
    (dry : Bool) (oracle : RenameOracle) :
    picsorter_main dry oracle fs root = ⟨2, initOut fs⟩ := by
  unfold picsorter_main
  rw [if_pos h1]

theorem picsorter_main_invalid_notdir {fs : FS} {root : FsPath} (h1 : fsExists fs root)
    (h2 : root ∉ fs.dirs) (dry : Bool) (oracle : RenameOracle) :
    picsorter_main dry oracle fs root = ⟨1, initOut fs⟩ := by
  unfold picsorter_main process_folder
  rw [if_neg (not_not.mpr h1), if_neg (not_not.mpr h1), if_pos h2]

theorem picsorter_main_valid {fs : FS} {root : FsPath} (h1 : fsExists fs root)
    (h2 : root ∈ fs.dirs) (dry : Bool) (oracle : RenameOracle) :
    picsorter_main dry oracle fs root =
      ⟨if (runList dry oracle fs (find_image_files fs root)).crashed then 1 else 0,
       runList dry oracle fs (find_image_files fs root)⟩ := by
  unfold picsorter_main process_folder
  rw [if_neg (not_not.mpr h1), if_neg (not_not.mpr h1), if_neg (not_not.mpr h2)]

theorem runList_dry_spec (oracle : RenameOracle) :
    ∀ (cands : List FsPath) (fs : FS),
      (runList true oracle fs cands).fs.files = fs.files ∧
      (∀ e ∈ (runList true oracle fs cands).trace, isMutatingAction e.result = false) ∧
      (∀ d ∈ (runList true oracle fs cands).fs.dirs, d ∈ fs.dirs ∨ lastName d = "no-exif")
  | [], fs => by
    rw [runList_nil]
    exact ⟨rfl, fun e he => absurd he (List.not_mem_nil e), fun d hd => Or.inl hd⟩
  | p :: rest, fs => by
    rcases hx : extract_date_taken (lookupFile fs p) with ⟨d, b⟩
    cases d with
    | none =>
      have IH := runList_dry_spec oracle rest fs
      rw [runList_cons_err hx]
      refine ⟨IH.1, ?_, IH.2.2⟩
      intro e he
      rcases List.mem_cons.mp he with rfl | he
      · rfl
      · exact IH.2.1 e he
    | some dt =>
      cases hg : generate_new_filename fs p dt b with
      | error e0 =>
        rw [runList_cons_crash hx hg]
        exact ⟨rfl, fun e he => absurd he (List.not_mem_nil e), fun d hd => Or.inl hd⟩
      | ok pr =>
        obtain ⟨np, fs1⟩ := pr
        obtain ⟨res, hr, hmut, -⟩ := rename_file_true_dry oracle fs1 p np
        have hgs := generate_ok_spec hg
        have IH := runList_dry_spec oracle rest fs1
        rw [runList_cons_ok_true hx hg hr]
        refine ⟨by rw [IH.1, hgs.1], ?_, ?_⟩
        · intro e he
          rcases List.mem_cons.mp he with rfl | he
          · exact hmut
          · exact IH.2.1 e he
        · intro d hd
          rcases IH.2.2 d hd with hd1 | hd1
          · exact hgs.2.2.2.1 d hd1
          · exact Or.inr hd1

/-- C1 (amended): a dry run never renames a file: the file set is unchanged
and no per-file outcome is a performed (or attempted) rename.  It is not free
of side effects, though: any directory it adds is a `no-exif` directory
created for a fallback candidate. -/
theorem dry_run_no_renames (oracle : RenameOracle) (fs : FS) (root : FsPath) :
    (picsorter_main true oracle fs root).state.fs.files = fs.files ∧
    ((picsorter_main true oracle fs root).state.trace.all
      (fun e => !isMutatingAction e.result)) = true ∧
    ((picsorter_main true oracle fs root).state.fs.dirs.all
      (fun d => fs.dirs.contains d || (lastName d == "no-exif"))) = true := by
  have hbridge : ∀ st : RunOut,
      st.fs.files = fs.files →
      (∀ e ∈ st.trace, isMutatingAction e.result = false) →
      (∀ d ∈ st.fs.dirs, d ∈ fs.dirs ∨ lastName d = "no-exif") →
      st.fs.files = fs.files ∧
      (st.trace.all (fun e => !isMutatingAction e.result)) = true ∧
      (st.fs.dirs.all (fun d => fs.dirs.contains d || (lastName d == "no-exif"))) = true := by
    intro st h1 h2 h3
    refine ⟨h1, ?_, ?_⟩
    · rw [List.all_eq_true]
      intro e he
      rw [Bool.not_eq_true']
      exact h2 e he
    · rw [List.all_eq_true]
      intro d hd
      rcases h3 d hd with hd1 | hd1 <;> simp [hd1]
  by_cases h1 : fsExists fs root
  · by_cases h2 : root ∈ fs.dirs
    · rw [picsorter_main_valid h1 h2 true oracle]
      have h := runList_dry_spec oracle (find_image_files fs root) fs
      exact hbridge _ h.1 h.2.1 h.2.2
    · rw [picsorter_main_invalid_notdir h1 h2 true oracle]
      exact hbridge _ rfl (fun e he => absurd he (List.not_mem_nil e)) (fun d hd => Or.inl hd)
  · rw [picsorter_main_invalid_missing h1 true oracle]
    exact hbridge _ rfl (fun e he => absurd he (List.not_mem_nil e)) (fun d hd => Or.inl hd)

theorem runList_counter_sum (dry : Bool) (oracle : RenameOracle) :
    ∀ (cands : List FsPath) (fs : FS),
      (runList dry oracle fs cands).crashed = false →
      (runList dry oracle fs cands).processed + (runList dry oracle fs cands).errors = cands.length
  | [], fs => by
    rw [runList_nil]
    intro _
    rfl
  | p :: rest, fs => by
    intro hnc
    rcases hx : extract_date_taken (lookupFile fs p) with ⟨d, b⟩
    cases d with
    | none =>
      rw [runList_cons_err hx] at hnc ⊢
      have IH := runList_counter_sum dry oracle rest fs hnc
      show (runList dry oracle fs rest).processed + ((runList dry oracle fs rest).errors + 1) =
        rest.length + 1
      omega
    | some dt =>
      cases hg : generate_new_filename fs p dt b with
      | error e0 =>
        rw [runList_cons_crash hx hg] at hnc
        exact Bool.noConfusion hnc
      | ok pr =>
        obtain ⟨np, fs1⟩ := pr
        rcases hr : rename_file dry oracle fs1 p np with ⟨succ, fs2, res⟩
        cases succ with
        | true =>
          rw [runList_cons_ok_true hx hg hr] at hnc ⊢
          have IH := runList_counter_sum dry oracle rest fs2 hnc
          show (runList dry oracle fs2 rest).processed + 1 + (runList dry oracle fs2 rest).errors =
            rest.length + 1
          omega
        | false =>
          rw [runList_cons_ok_false hx hg hr] at hnc ⊢
          have IH := runList_counter_sum dry oracle rest fs2 hnc
          show (runList dry oracle fs2 rest).processed + ((runList dry oracle fs2 rest).errors + 1) =
            rest.length + 1
          omega

/-- C10: when the per-candidate loop completes (the run is not aborted by the
uncaught `mkdir` failure), the processed counter plus the error counter
equals the number of candidate files enumerated: every candidate increments
exactly one of the two counters exactly once. -/
theorem counter_sum_invariant (dry : Bool) (oracle : RenameOracle) (fs : FS) (root : FsPath)
    (h1 : fsExists fs root) (h2 : root ∈ fs.dirs)
    (hnc : (picsorter_main dry oracle fs root).state.crashed = false) :
    (picsorter_main dry oracle fs root).state.processed +
      (picsorter_main dry oracle fs root).state.errors =
      (find_image_files fs root).length := by
  rw [picsorter_main_valid h1 h2 dry oracle] at hnc ⊢
  exact runList_counter_sum dry oracle (find_image_files fs root) fs hnc

/-- Witness for the counter-sum theorem: both colliding candidates of `fsB`
are processed, no errors, 2 = 2. -/
theorem counter_sum_invariant_witness :
    (picsorter_main false alwaysOk fsB ["d"]).state.processed +
      (picsorter_main false alwaysOk fsB ["d"]).state.errors =
      (find_image_files fsB ["d"]).length :=
  counter_sum_invariant false alwaysOk fsB ["d"] (by decide) (by decide) (by decide)

/-- C7 (amended): the exit status is 0 exactly when the root path exists, is
a directory, and the run was not aborted by the uncaught `mkdir` failure of a
`no-exif` directory; per-file errors never make it nonzero.  When the root is
invalid the process stops before touching any file: the resulting state is
the freshly initialized one. -/
theorem exit_code_characterization (dry : Bool) (oracle : RenameOracle) (fs : FS) (root : FsPath) :
    ((picsorter_main dry oracle fs root).exitCode = 0 ↔
      (fsExists fs root ∧ root ∈ fs.dirs ∧
        (picsorter_main dry oracle fs root).state.crashed = false)) ∧
    (¬ (fsExists fs root ∧ root ∈ fs.dirs) →
      (picsorter_main dry oracle fs root).state = initOut fs) := by
  by_cases h1 : fsExists fs root
  · by_cases h2 : root ∈ fs.dirs
    · rw [picsorter_main_valid h1 h2 dry oracle]
      refine ⟨?_, fun hx => absurd ⟨h1, h2⟩ hx⟩
      show (if (runList dry oracle fs (find_image_files fs root)).crashed = true then 1 else 0) = 0 ↔ _
      cases hc : (runList dry oracle fs (find_image_files fs root)).crashed with
      | true =>
        rw [if_pos rfl]
        exact iff_of_false (by omega) (fun hx => Bool.noConfusion hx.2.2)
      | false =>
        rw [if_neg (fun hx => Bool.noConfusion hx)]
        exact iff_of_true rfl ⟨h1, h2, rfl⟩
    · rw [picsorter_main_invalid_notdir h1 h2 dry oracle]
      exact ⟨iff_of_false (fun hx => Nat.one_ne_zero hx) (fun hx => h2 hx.2.1), fun _ => rfl⟩
  · rw [picsorter_main_invalid_missing h1 dry oracle]
    exact ⟨iff_of_false (fun hx => Nat.succ_ne_zero 1 hx) (fun hx => h1 hx.1), fun _ => rfl⟩

/-- Witness for the exit-code theorem: a healthy run exits 0; a missing root
leaves the state untouched. -/
theorem exit_code_characterization_witness :
    (picsorter_main false alwaysOk fsB ["d"]).exitCode = 0 ∧
    (picsorter_main false alwaysOk fsB ["nope"]).state = initOut fsB := by
  constructor
  · exact (exit_code_characterization false alwaysOk fsB ["d"]).1.mpr
      ⟨by decide, by decide, by decide⟩
  · exact (exit_code_characterization false alwaysOk fsB ["nope"]).2 (by decide)

/-- C7 counterexample: a run over a perfectly valid root directory exits
nonzero: the fallback candidate `x.png` sits next to a plain file named
`no-exif`, `mkdir(exist_ok=True)` raises, and the uncaught exception kills
the interpreter with status 1. -/
theorem exit_nonzero_with_valid_root :
    fsExists fsC ["d"] ∧ ["d"] ∈ fsC.dirs ∧
    (picsorter_main false alwaysOk fsC ["d"]).exitCode = 1 ∧
    (picsorter_main false alwaysOk fsC ["d"]).state.crashed = true := by
  exact ⟨by decide, by decide, by decide, by decide⟩

theorem dirAgnostic_refl (fs : FS) : DirAgnostic fs fs :=
  ⟨rfl, fun _ hd => Or.inl hd, fun _ hd => Or.inl hd⟩

theorem filePaths_eq_of_files_eq {fs g : FS} (h : fs.files = g.files) :
    filePaths fs = filePaths g := by
  unfold filePaths
  rw [h]

theorem lookupFile_eq_of_files_eq {fs g : FS} (h : fs.files = g.files) (p : FsPath) :
    lookupFile fs p = lookupFile g p := by
  unfold lookupFile
  rw [h]

theorem fsExists_iff_dirAgnostic {fs g : FS} (h : DirAgnostic fs g) {q : FsPath}
    (hq : lastName q ≠ "no-exif") : fsExists fs q ↔ fsExists g q := by
  obtain ⟨hf, h1, h2⟩ := h
  unfold fsExists allPaths
  rw [filePaths_eq_of_files_eq hf]
  simp only [List.mem_append]
  constructor
  · rintro (hx | hx)
    · exact Or.inl hx
    · rcases h1 q hx with hx1 | hx1
      · exact Or.inr hx1
      · exact absurd hx1 hq
  · rintro (hx | hx)
    · exact Or.inl hx
    · rcases h2 q hx with hx1 | hx1
      · exact Or.inr hx1
      · exact absurd hx1 hq

theorem lastName_candPath (p : FsPath) (dt : DateTime) (fb : Bool) (k : Nat) :
    lastName (candPath p dt fb k) = candName (dateStr dt) (extOf p) k :=
  lastName_append _ _

theorem dirAgnostic_fsRename {fs g : FS} (h : DirAgnostic fs g) (o n : FsPath) :
    DirAgnostic (fsRename fs o n) (fsRename g o n) := by
  obtain ⟨hf, h1, h2⟩ := h
  refine ⟨?_, h1, h2⟩
  show fs.files.map _ = g.files.map _
  rw [hf]

theorem generate_dirAgnostic {fs g : FS} (h : DirAgnostic fs g) (p : FsPath) (dt : DateTime)
    (fb : Bool) :
    (generate_new_filename fs p dt fb = .error () ∧ generate_new_filename g p dt fb = .error ()) ∨
    (∃ np fs1 g1, generate_new_filename fs p dt fb = .ok (np, fs1) ∧
      generate_new_filename g p dt fb = .ok (np, g1) ∧ DirAgnostic fs1 g1) := by
  have hfp : filePaths fs = filePaths g := filePaths_eq_of_files_eq h.1
  by_cases herr : fb = true ∧ parentDir p ++ ["no-exif"] ∈ filePaths fs
  · left
    exact ⟨(generate_error_iff fs p dt fb).mpr herr,
      (generate_error_iff g p dt fb).mpr ⟨herr.1, by rw [← hfp]; exact herr.2⟩⟩
  · right
    have mkStep : ∀ (x : FS), ¬(fb = true ∧ parentDir p ++ ["no-exif"] ∈ filePaths x) →
        ∃ x1, (if fb then mkdirExistOk x (parentDir p ++ ["no-exif"]) else Except.ok x) = .ok x1 ∧
          x1.files = x.files ∧
          (∀ d ∈ x.dirs, d ∈ x1.dirs) ∧
          (∀ d ∈ x1.dirs, d ∈ x.dirs ∨ d = parentDir p ++ ["no-exif"]) ∧
          (∀ q : FsPath, q ≠ parentDir p ++ ["no-exif"] → (fsExists x1 q ↔ fsExists x q)) := by
      intro x hx
      cases fb with
      | false =>
        exact ⟨x, by rw [if_neg (fun hc => Bool.noConfusion hc)], rfl,
          fun d hd => hd, fun d hd => Or.inl hd, fun q _ => Iff.rfl⟩
      | true =>
        have hnf : parentDir p ++ ["no-exif"] ∉ filePaths x := fun hc => hx ⟨rfl, hc⟩
        by_cases hd : parentDir p ++ ["no-exif"] ∈ x.dirs
        · refine ⟨x, ?_, rfl, fun d hd2 => hd2, fun d hd2 => Or.inl hd2, fun q _ => Iff.rfl⟩
          rw [if_pos rfl]
          unfold mkdirExistOk
          rw [if_neg hnf, if_pos hd]
        · refine ⟨{ x with dirs := x.dirs ++ [parentDir p ++ ["no-exif"]] }, ?_, rfl,
            fun d hd2 => List.mem_append_left _ hd2, ?_, ?_⟩
          · rw [if_pos rfl]
            unfold mkdirExistOk
            rw [if_neg hnf, if_neg hd]
          · intro d hd2
            rcases List.mem_append.mp hd2 with hd2 | hd2
            · exact Or.inl hd2
            · exact Or.inr (List.mem_singleton.mp hd2)
          · intro q hq
            exact fsExists_append_dir x _ q hq
    obtain ⟨fs1, hm1, hfl1, hdmono1, hdchar1, hiffq1⟩ := mkStep fs herr
    obtain ⟨g1, hm2, hfl2, hdmono2, hdchar2, hiffq2⟩ :=
      mkStep g (fun hc => herr ⟨hc.1, by rw [hfp]; exact hc.2⟩)
    have hda1 : DirAgnostic fs1 g1 := by
      refine ⟨by rw [hfl1, hfl2, h.1], ?_, ?_⟩
      · intro d hd
        rcases hdchar1 d hd with hd1 | hd1
        · rcases h.2.1 d hd1 with hd2 | hd2
          · exact Or.inl (hdmono2 d hd2)
          · exact Or.inr hd2
        · subst hd1
          exact Or.inr (lastName_append _ _)
      · intro d hd
        rcases hdchar2 d hd with hd1 | hd1
        · rcases h.2.2 d hd1 with hd2 | hd2
          · exact Or.inl (hdmono1 d hd2)
          · exact Or.inr hd2
        · subst hd1
          exact Or.inr (lastName_append _ _)
    have hiffc : ∀ k,
        (¬(fsExists fs1 (targetDir p fb ++ [candName (dateStr dt) (extOf p) k]) ∧
           targetDir p fb ++ [candName (dateStr dt) (extOf p) k] ≠ p)) ↔
        (¬(fsExists g1 (targetDir p fb ++ [candName (dateStr dt) (extOf p) k]) ∧
           targetDir p fb ++ [candName (dateStr dt) (extOf p) k] ≠ p)) := by
      intro k
      have hex : fsExists fs1 (targetDir p fb ++ [candName (dateStr dt) (extOf p) k]) ↔
          fsExists g1 (targetDir p fb ++ [candName (dateStr dt) (extOf p) k]) := by
        refine fsExists_iff_dirAgnostic hda1 ?_
        rw [lastName_append]
        exact candName_dateStr_ne_noexif dt (extOf p) k
      rw [hex]
    obtain ⟨m1, hm1b, hP1⟩ := exit_exists fs1 p (targetDir p fb) (dateStr dt) (extOf p)
    obtain ⟨m2, hm2b, hP2⟩ := exit_exists g1 p (targetDir p fb) (dateStr dt) (extOf p)
    have hex1 : ∃ k, ¬(fsExists fs1 (targetDir p fb ++ [candName (dateStr dt) (extOf p) k]) ∧
        targetDir p fb ++ [candName (dateStr dt) (extOf p) k] ≠ p) := ⟨m1, hP1⟩
    have hex2 : ∃ k, ¬(fsExists g1 (targetDir p fb ++ [candName (dateStr dt) (extOf p) k]) ∧
        targetDir p fb ++ [candName (dateStr dt) (extOf p) k] ≠ p) := ⟨m2, hP2⟩
    have hfind : Nat.find hex1 = Nat.find hex2 := by
      apply le_antisymm
      · exact Nat.find_min' hex1 ((hiffc _).mpr (Nat.find_spec hex2))
      · exact Nat.find_min' hex2 ((hiffc _).mp (Nat.find_spec hex1))
    refine ⟨targetDir p fb ++ [candName (dateStr dt) (extOf p) (Nat.find hex1)], fs1, g1,
      ?_, ?_, hda1⟩
    · rw [generate_unfold_ok hm1,
        resolveLoop_eq_find fs1 p (targetDir p fb) (dateStr dt) (extOf p) hex1
          (le_trans (Nat.find_min' hex1 hP1) (by omega))]
    · rw [generate_unfold_ok hm2,
        resolveLoop_eq_find g1 p (targetDir p fb) (dateStr dt) (extOf p) hex2
          (le_trans (Nat.find_min' hex2 hP2) (by omega)), hfind]

theorem runList_dirAgnostic (dry : Bool) (oracle : RenameOracle) :
    ∀ (cands : List FsPath) (fs g : FS), DirAgnostic fs g →
      (runList dry oracle fs cands).processed = (runList dry oracle g cands).processed ∧
      (runList dry oracle fs cands).errors = (runList dry oracle g cands).errors ∧
      (runList dry oracle fs cands).trace = (runList dry oracle g cands).trace ∧
      (runList dry oracle fs cands).crashed = (runList dry oracle g cands).crashed ∧
      DirAgnostic (runList dry oracle fs cands).fs (runList dry oracle g cands).fs
  | [], fs, g, h => by
    rw [runList_nil, runList_nil]
    exact ⟨rfl, rfl, rfl, rfl, h⟩
  | p :: rest, fs, g, h => by
    have hlk : lookupFile fs p = lookupFile g p := lookupFile_eq_of_files_eq h.1 p
    rcases hx : extract_date_taken (lookupFile fs p) with ⟨d, b⟩
    have hx2 : extract_date_taken (lookupFile g p) = (d, b) := by rw [← hlk, hx]
    cases d with
    | none =>
      rw [runList_cons_err hx, runList_cons_err hx2]
      obtain ⟨ih1, ih2, ih3, ih4, ih5⟩ := runList_dirAgnostic dry oracle rest fs g h
      exact ⟨ih1, by rw [ih2], by rw [ih3], ih4, ih5⟩
    | some dt =>
      rcases generate_dirAgnostic h p dt b with ⟨he1, he2⟩ | ⟨np, fs1, g1, hg1, hg2, hda1⟩
      · rw [runList_cons_crash hx he1, runList_cons_crash hx2 he2]
        exact ⟨rfl, rfl, rfl, rfl, h⟩
      · by_cases hpn : p = np
        · rw [runList_cons_ok_true hx hg1 (rename_file_eq_inPlace dry oracle fs1 hpn),
            runList_cons_ok_true hx2 hg2 (rename_file_eq_inPlace dry oracle g1 hpn)]
          obtain ⟨ih1, ih2, ih3, ih4, ih5⟩ := runList_dirAgnostic dry oracle rest fs1 g1 hda1
          exact ⟨by rw [ih1], ih2, by rw [ih3], ih4, ih5⟩
        · cases dry with
          | true =>
            rw [runList_cons_ok_true hx hg1 (rename_file_eq_would oracle fs1 hpn),
              runList_cons_ok_true hx2 hg2 (rename_file_eq_would oracle g1 hpn)]
            obtain ⟨ih1, ih2, ih3, ih4, ih5⟩ := runList_dirAgnostic true oracle rest fs1 g1 hda1
            exact ⟨by rw [ih1], ih2, by rw [ih3], ih4, ih5⟩
          | false =>
            cases ho : oracle p np with
            | true =>
              rw [runList_cons_ok_false hx hg1 (rename_file_eq_failed oracle fs1 hpn ho),
                runList_cons_ok_false hx2 hg2 (rename_file_eq_failed oracle g1 hpn ho)]
              obtain ⟨ih1, ih2, ih3, ih4, ih5⟩ := runList_dirAgnostic false oracle rest fs1 g1 hda1
              exact ⟨ih1, by rw [ih2], by rw [ih3], ih4, ih5⟩
            | false =>
              rw [runList_cons_ok_true hx hg1 (rename_file_eq_renamed oracle fs1 hpn ho),
                runList_cons_ok_true hx2 hg2 (rename_file_eq_renamed oracle g1 hpn ho)]
              obtain ⟨ih1, ih2, ih3, ih4, ih5⟩ := runList_dirAgnostic false oracle rest
                (fsRename fs1 p np) (fsRename g1 p np) (dirAgnostic_fsRename hda1 p np)
              exact ⟨by rw [ih1], ih2, by rw [ih3], ih4, ih5⟩

/-- C8 (amended): the per-file recoverable failures the spec lists — a
metadata read or decode failure, and a rename failure — are counted in the
error tally, the run continues, and the processing of every subsequent
candidate is unchanged (same outcomes, same counter deltas, same resulting
file set) compared to a run without the failing step's effects.  A fallback
candidate whose `no-exif` directory cannot be created is, however, not
recoverable: the uncaught exception aborts the loop (see the
counterexample). -/
theorem listed_failures_recoverable (dry : Bool) (oracle : RenameOracle) (fs : FS) (p : FsPath)
    (rest : List FsPath) :
    ((extract_date_taken (lookupFile fs p)).1 = none →
      runList dry oracle fs (p :: rest) =
        ⟨(runList dry oracle fs rest).fs, (runList dry oracle fs rest).processed,
         (runList dry oracle fs rest).errors + 1,
         ⟨p, .extractError⟩ :: (runList dry oracle fs rest).trace,
         (runList dry oracle fs rest).crashed⟩) ∧
    (∀ (dt : DateTime) (fb : Bool) (np : FsPath) (fs1 : FS),
      extract_date_taken (lookupFile fs p) = (some dt, fb) →
      generate_new_filename fs p dt fb = .ok (np, fs1) →
      p ≠ np → oracle p np = true →
      (runList false oracle fs (p :: rest)).errors = (runList false oracle fs rest).errors + 1 ∧
      (runList false oracle fs (p :: rest)).processed = (runList false oracle fs rest).processed ∧
      (runList false oracle fs (p :: rest)).trace =
        ⟨p, .renameFailed np⟩ :: (runList false oracle fs rest).trace ∧
      (runList false oracle fs (p :: rest)).crashed = (runList false oracle fs rest).crashed ∧
      (runList false oracle fs (p :: rest)).fs.files = (runList false oracle fs rest).fs.files) := by
  constructor
  · intro hn
    have hx0 : extract_date_taken (lookupFile fs p) =
        ((extract_date_taken (lookupFile fs p)).1, (extract_date_taken (lookupFile fs p)).2) :=
      Prod.mk.eta.symm
    rw [hn] at hx0
    exact runList_cons_err hx0
  · intro dt fb np fs1 hx hg hpn ho
    rw [runList_cons_ok_false hx hg (rename_file_eq_failed oracle fs1 hpn ho)]
    have hgs := generate_ok_spec hg
    have hda : DirAgnostic fs1 fs :=
      ⟨hgs.1, fun d hd => hgs.2.2.2.1 d hd, fun d hd => Or.inl (hgs.2.2.1 d hd)⟩
    obtain ⟨ih1, ih2, ih3, ih4, ih5⟩ := runList_dirAgnostic false oracle rest fs1 fs hda
    exact ⟨by rw [ih2], ih1, by rw [ih3], ih4, ih5.1⟩

/-- Witness for the recoverable-failures theorem: an undecodable image is
tallied as an error and the run goes on; a failing rename (oracle always
raising) is tallied as an error too. -/
theorem listed_failures_recoverable_witness :
    runList false alwaysOk fsE (["d", "bad.jpg"] :: []) =
      ⟨fsE, 0, 1, [⟨["d", "bad.jpg"], .extractError⟩], false⟩ ∧
    (runList false alwaysFail fsB (["d", "a.jpg"] :: [])).errors = 1 := by
  constructor
  · have h := (listed_failures_recoverable false alwaysOk fsE ["d", "bad.jpg"] []).1 (by decide)
    rw [h]
    rfl
  · have h := ((listed_failures_recoverable false alwaysFail fsB ["d", "a.jpg"] []).2
      ⟨2023, 5, 17, 14, 30, 0⟩ false ["d", "20230517143000.jpg"] fsB (by decide) (by decide)
      (by decide) (by decide)).1
    rw [h]
    rfl

/-- C8 counterexample: a candidate can abort the whole run: `x.png` needs the
fallback `no-exif` directory but a plain file named `no-exif` is in the way,
so the uncaught `mkdir` exception stops the loop; the failure is not tallied
and the enumerated candidate `y.png` behind it is never processed. -/
theorem candidate_abort_counterexample :
    find_image_files fsC ["d"] = [["d", "x.png"], ["d", "y.png"]] ∧
    (picsorter_main false alwaysOk fsC ["d"]).state.crashed = true ∧
    (picsorter_main false alwaysOk fsC ["d"]).state.trace = [] ∧
    (picsorter_main false alwaysOk fsC ["d"]).state.errors = 0 := by
  exact ⟨by decide, by decide, by decide, by decide⟩

theorem fsExists_of_mem_filePaths {fs : FS} {q : FsPath} (h : q ∈ filePaths fs) : fsExists fs q :=
  List.mem_append.mpr (Or.inl h)

theorem lookup_some_mem {fs : FS} {p : FsPath} {dt : DateTime} {fb : Bool}
    (hx : extract_date_taken (lookupFile fs p) = (some dt, fb)) : p ∈ filePaths fs := by
  cases hl : lookupFile fs p with
  | none =>
    rw [hl] at hx
    exact Option.noConfusion (congrArg Prod.fst hx)
  | some fc =>
    unfold lookupFile at hl
    cases hf : fs.files.find? (fun e => e.1 == p) with
    | none =>
      rw [hf] at hl
      exact Option.noConfusion hl
    | some e =>
      have hmem := List.mem_of_find?_eq_some hf
      have hpred := List.find?_some hf
      have hep : e.1 = p := by simpa using hpred
      rw [← hep]
      exact List.mem_map.mpr ⟨e, hmem, rfl⟩

theorem filePaths_fsRename (fs : FS) (o n : FsPath) :
    filePaths (fsRename fs o n) = (filePaths fs).map (fun q => if q = o then n else q) := by
  unfold filePaths fsRename
  simp only [List.map_map]
  congr 1
  funext e
  by_cases he : e.1 = o
  · simp [Function.comp, he]
  · simp [Function.comp, he]

theorem mem_filePaths_fsRename_of_ne {fs : FS} {q o n : FsPath} (hq : q ∈ filePaths fs)
    (hne : q ≠ o) : q ∈ filePaths (fsRename fs o n) := by
  rw [filePaths_fsRename]
  exact List.mem_map.mpr ⟨q, hq, by rw [if_neg hne]⟩

theorem target_mem_filePaths_fsRename {fs : FS} {o : FsPath} (n : FsPath)
    (ho : o ∈ filePaths fs) : n ∈ filePaths (fsRename fs o n) := by
  rw [filePaths_fsRename]
  exact List.mem_map.mpr ⟨o, ho, by rw [if_pos rfl]⟩

theorem runList_avoid (dry : Bool) (oracle : RenameOracle) :
    ∀ (cands : List FsPath) (fs : FS) (c : FsPath), c ∈ filePaths fs →
      (∀ q ∈ cands, q ≠ c) →
      ∀ e ∈ (runList dry oracle fs cands).trace, entryDest e ≠ some c
  | [], fs, c, _, _ => by
    rw [runList_nil]
    intro e he
    exact absurd he (List.not_mem_nil e)
  | p :: rest, fs, c, hc, hq => by
    rcases hx : extract_date_taken (lookupFile fs p) with ⟨d, b⟩
    cases d with
    | none =>
      rw [runList_cons_err hx]
      intro e he
      rcases List.mem_cons.mp he with rfl | he
      · exact fun hcon => Option.noConfusion hcon
      · exact runList_avoid dry oracle rest fs c hc
          (fun q hqr => hq q (List.mem_cons_of_mem p hqr)) e he
    | some dt =>
      cases hg : generate_new_filename fs p dt b with
      | error e0 =>
        rw [runList_cons_crash hx hg]
        intro e he
        exact absurd he (List.not_mem_nil e)
      | ok pr =>
        obtain ⟨np, fs1⟩ := pr
        have hgs := generate_ok_spec hg
        have hcfs1 : c ∈ filePaths fs1 := by
          rw [filePaths_eq_of_files_eq hgs.1]
          exact hc
        have hpc : p ≠ c := hq p (List.mem_cons_self p rest)
        have hnpc : np ≠ c := by
          intro heq
          rcases hgs.2.1 with hnex | hnp
          · rw [heq] at hnex
            exact hnex (fsExists_of_mem_filePaths hcfs1)
          · rw [hnp] at heq
            exact hpc heq
        have hqrest : ∀ q ∈ rest, q ≠ c := fun q hqr => hq q (List.mem_cons_of_mem p hqr)
        rcases hr : rename_file dry oracle fs1 p np with ⟨succ, fs2, res⟩
        have hres : entryDest ⟨p, res⟩ = some np ∧
            (fs2 = fs1 ∨ fs2 = fsRename fs1 p np) := by
          unfold rename_file at hr
          split_ifs at hr <;>
            (injection hr with h1 hr2; injection hr2 with h2 h3; subst h2; subst h3) <;>
            exact ⟨rfl, by first | exact Or.inl rfl | exact Or.inr rfl⟩
        have hcfs2 : c ∈ filePaths fs2 := by
          rcases hres.2 with rfl | rfl
          · exact hcfs1
          · exact mem_filePaths_fsRename_of_ne hcfs1 (fun hcp => hpc hcp.symm)
        have htail := fun e he => runList_avoid dry oracle rest fs2 c hcfs2 hqrest e he
        cases succ with
        | true =>
          rw [runList_cons_ok_true hx hg hr]
          intro e he
          rcases List.mem_cons.mp he with rfl | he
          · rw [hres.1]
            exact fun hcon => hnpc (Option.some.inj hcon)
          · exact htail e he
        | false =>
          rw [runList_cons_ok_false hx hg hr]
          intro e he
          rcases List.mem_cons.mp he with rfl | he
          · rw [hres.1]
            exact fun hcon => hnpc (Option.some.inj hcon)
          · exact htail e he

theorem runList_noReclaim (dry : Bool) (oracle : RenameOracle) :
    ∀ (cands : List FsPath) (fs : FS), cands.Nodup →
      (∀ q ∈ cands, q ∈ filePaths fs) →
      (runList dry oracle fs cands).trace.Pairwise noReclaimRel
  | [], fs, _, _ => by
    rw [runList_nil]
    exact List.Pairwise.nil
  | p :: rest, fs, hnd, hsub => by
    obtain ⟨hp_rest, hnd_rest⟩ := List.nodup_cons.mp hnd
    have hsub_rest : ∀ q ∈ rest, q ∈ filePaths fs :=
      fun q hqr => hsub q (List.mem_cons_of_mem p hqr)
    rcases hx : extract_date_taken (lookupFile fs p) with ⟨d, b⟩
    cases d with
    | none =>
      rw [runList_cons_err hx]
      refine List.Pairwise.cons ?_ (runList_noReclaim dry oracle rest fs hnd_rest hsub_rest)
      intro e _
      exact Or.inl rfl
    | some dt =>
      cases hg : generate_new_filename fs p dt b with
      | error e0 =>
        rw [runList_cons_crash hx hg]
        exact List.Pairwise.nil
      | ok pr =>
        obtain ⟨np, fs1⟩ := pr
        have hgs := generate_ok_spec hg
        have hpfs : p ∈ filePaths fs := lookup_some_mem hx
        have hpfs1 : p ∈ filePaths fs1 := by
          rw [filePaths_eq_of_files_eq hgs.1]
          exact hpfs
        have hsub1 : ∀ q ∈ rest, q ∈ filePaths fs1 := by
          intro q hqr
          rw [filePaths_eq_of_files_eq hgs.1]
          exact hsub_rest q hqr
        by_cases hpn : p = np
        · rw [runList_cons_ok_true hx hg (rename_file_eq_inPlace dry oracle fs1 hpn)]
          refine List.Pairwise.cons ?_ (runList_noReclaim dry oracle rest fs1 hnd_rest hsub1)
          intro e he
          right
          intro hcon
          have hav := runList_avoid dry oracle rest fs1 np
            (by rw [← hpn]; exact hpfs1)
            (fun q hqr => by rw [← hpn]; exact fun hqp => hp_rest (hqp ▸ hqr)) e he
          exact hav (by rw [← hcon]; rfl)
        · cases dry with
          | true =>
            rw [runList_cons_ok_true hx hg (rename_file_eq_would oracle fs1 hpn)]
            refine List.Pairwise.cons ?_ (runList_noReclaim true oracle rest fs1 hnd_rest hsub1)
            intro e _
            exact Or.inl rfl
          | false =>
            cases ho : oracle p np with
            | true =>
              rw [runList_cons_ok_false hx hg (rename_file_eq_failed oracle fs1 hpn ho)]
              refine List.Pairwise.cons ?_ (runList_noReclaim false oracle rest fs1 hnd_rest hsub1)
              intro e _
              exact Or.inl rfl
            | false =>
              rw [runList_cons_ok_true hx hg (rename_file_eq_renamed oracle fs1 hpn ho)]
              have hnex : ¬ fsExists fs1 np := by
                rcases hgs.2.1 with hnex | hnp
                · exact hnex
                · exact absurd hnp.symm hpn
              have hsub2 : ∀ q ∈ rest, q ∈ filePaths (fsRename fs1 p np) := by
                intro q hqr
                exact mem_filePaths_fsRename_of_ne (hsub1 q hqr)
                  (fun hqp => hp_rest (hqp ▸ hqr))
              refine List.Pairwise.cons ?_
                (runList_noReclaim false oracle rest (fsRename fs1 p np) hnd_rest hsub2)
              intro e he
              right
              intro hcon
              have hav := runList_avoid false oracle rest (fsRename fs1 p np) np
                (target_mem_filePaths_fsRename np hpfs1)
                (fun q hqr hqnp => hnex (by
                  rw [← hqnp]
                  exact fsExists_of_mem_filePaths (hsub1 q hqr))) e he
              exact hav (by rw [← hcon]; rfl)

/-- C6: within a single run, in either mode of operation, no destination path
returned by the filename deriver equals a destination already claimed earlier
in the same run (a path an earlier candidate was renamed to, or confirmed as
already carrying its derived name): consecutive claim-checking against the
live filesystem makes every later derived destination distinct from every
earlier claimed one. -/
theorem no_reclaimed_destination (dry : Bool) (oracle : RenameOracle) (fs : FS) (root : FsPath)
    (hnd : (filePaths fs).Nodup) :
    ((picsorter_main dry oracle fs root).state.trace).Pairwise noReclaimRel := by
  by_cases h1 : fsExists fs root
  · by_cases h2 : root ∈ fs.dirs
    · rw [picsorter_main_valid h1 h2 dry oracle]
      refine runList_noReclaim dry oracle (find_image_files fs root) fs ?_ ?_
      · exact hnd.filter _
      · intro q hq
        exact List.mem_of_mem_filter hq
    · rw [picsorter_main_invalid_notdir h1 h2 dry oracle]
      exact List.Pairwise.nil
  · rw [picsorter_main_invalid_missing h1 dry oracle]
    exact List.Pairwise.nil

/-- Witness for the no-reclaimed-destination theorem: the two-collision run
over `fsB`. -/
theorem no_reclaimed_destination_witness :
    ((picsorter_main false alwaysOk fsB ["d"]).state.trace).Pairwise noReclaimRel :=
  no_reclaimed_destination false alwaysOk fsB ["d"] (by decide)
